import Mathlib

/-!
# headless-sso: the program `main.go` and its specification

A shallow embedding of `main.go` and proofs about it.  The program reads an authorization URL
from standard input, resolves credentials, drives a headless browser through the login and keeps
the session cookie in a file.

* Pure code (the pattern of `getURL`, the encoding of the cookie file) is a Lean function.
* Loops that need not end (`getURL`, the approval polling) take fuel: `none` is a loop that is
  still running when the fuel is used up.
* What the operating system, the browser and the page answer is a parameter (`OS`, `World`); the
  effects of a run are a list of `Event`s.
* The library functions the program calls (`regexp`, `bufio`, `encoding/base64`, `encoding/json`,
  the netrc library, the browser driver) are modelled after their documented behaviour, as far as
  the program uses them.
-/

namespace HeadlessSSO

/-! ## `regexp`: the expressions `getURL` needs -/

/-- Regular expressions over characters; `cls p` is one character of the class `p`. -/
inductive Regex where
  | empty : Regex
  | eps : Regex
  | cls : (Char → Bool) → Regex
  | cat : Regex → Regex → Regex
  | alt : Regex → Regex → Regex
  | star : Regex → Regex

namespace Regex

/-- Whether the empty word is a word of the expression. -/
def nullable : Regex → Bool
  | empty => false
  | eps => true
  | cls _ => false
  | cat r s => nullable r && nullable s
  | alt r s => nullable r || nullable s
  | star _ => true

/-- The derivative: the expression of the words `s` such that `c :: s` is a word of `r`. -/
def deriv (c : Char) : Regex → Regex
  | empty => empty
  | eps => empty
  | cls p => if p c then eps else empty
  | cat r s => if nullable r then alt (cat (deriv c r) s) (deriv c s) else cat (deriv c r) s
  | alt r s => alt (deriv c r) (deriv c s)
  | star r => cat (deriv c r) (star r)

/-- Whether some prefix of the text is a word of the expression: the unanchored search
`MatchString` for a pattern that begins with `^`. -/
def matchPrefix : Regex → List Char → Bool
  | r, [] => nullable r
  | r, c :: cs => nullable r || matchPrefix (deriv c r) cs

/-- The expression of one literal text. -/
def lit : List Char → Regex
  | [] => eps
  | c :: cs => cat (cls (fun x => x == c)) (lit cs)

/-- The repetition `r{n}`. -/
def rep : Nat → Regex → Regex
  | 0, _ => eps
  | n + 1, r => cat r (rep n r)

/-- The option `r?`. -/
def opt (r : Regex) : Regex := alt r eps

end Regex

open Regex in
/-- The pattern `^https.*user_code=([A-Z]{4}-?){2}` of `getURL` after its `^`; the dot is any
character but the newline. -/
def urlPattern : Regex :=
  cat (lit "https".data)
    (cat (star (cls (fun c => c != '\n')))
      (cat (lit "user_code=".data)
        (rep 2 (cat (rep 4 (cls (fun c => 'A' ≤ c && c ≤ 'Z'))) (opt (cls (fun c => c == '-')))))))

/-- The call `r.MatchString(t)` of `getURL`. -/
def MatchString (t : String) : Bool := Regex.matchPrefix urlPattern t.data

/-! ## URL intake -/

/-- The state of a `bufio.Scanner` over standard input, as far as `getURL` sees it: the lines not
yet delivered (each within the scanner's token limit) and the token of the last `Scan`. -/
structure Scanner where
  pending : List String
  token : String

/-- The call `bufio.NewScanner(os.Stdin)` on an input of the given lines. -/
def NewScanner (stdin : List String) : Scanner := { pending := stdin, token := "" }

/-- The method `Scan`: advances to the next line; at end of input it reports `false` and the
token becomes empty. -/
def Scanner.Scan (s : Scanner) : Bool × Scanner :=
  match s.pending with
  | [] => (false, { pending := [], token := "" })
  | l :: ls => (true, { pending := ls, token := l })

/-- The method `Text`: the token of the last `Scan`. -/
def Scanner.Text (s : Scanner) : String := s.token

/-- The loop `for url == "" { ... }` of `getURL`: scan, take the text, keep it when it matches.
Every test of the loop condition costs one unit of fuel; `none` means that the loop is still
running when the fuel is used up.  The result of `Scan` is discarded, as in the source. -/
def getURLLoop : Nat → Scanner → String → Option String
  | 0, _, _ => none
  | fuel + 1, scanner, url =>
    if url == "" then
      let scanner := scanner.Scan.2
      let t := scanner.Text
      getURLLoop fuel scanner (if MatchString t then t else url)
    else
      some url

/-- The function `getURL` on a standard input of the given lines. -/
def getURL (fuel : Nat) (stdin : List String) : Option String :=
  getURLLoop fuel (NewScanner stdin) ""

/-! ## `encoding/base64`, `StdEncoding` (bytes are natural numbers below 256) -/

/-- The alphabet `encodeStd`: the character for a 6-bit value. -/
def b64Encode (n : Nat) : Nat :=
  if n < 26 then 65 + n
  else if n < 52 then 97 + (n - 26)
  else if n < 62 then 48 + (n - 52)
  else if n = 62 then 43
  else 47

/-- The table `decodeMap`: the 6-bit value of a character of the alphabet, `none` for the entries
`0xff`. -/
def b64DecodeMap (c : Nat) : Option Nat :=
  if 65 ≤ c ∧ c ≤ 90 then some (c - 65)
  else if 97 ≤ c ∧ c ≤ 122 then some (c - 71)
  else if 48 ≤ c ∧ c ≤ 57 then some (c + 4)
  else if c = 43 then some 62
  else if c = 47 then some 63
  else none

/-- The function `StdEncoding.EncodeToString`: three bytes become four characters, a rest of one or
two bytes is padded with `=` (61). -/
def EncodeToString : List Nat → List Nat
  | [] => []
  | [a] =>
    let val := a * 65536
    [b64Encode (val / 262144 % 64), b64Encode (val / 4096 % 64), 61, 61]
  | [a, b] =>
    let val := a * 65536 + b * 256
    [b64Encode (val / 262144 % 64), b64Encode (val / 4096 % 64), b64Encode (val / 64 % 64), 61]
  | a :: b :: c :: rest =>
    let val := a * 65536 + b * 256 + c
    b64Encode (val / 262144 % 64) :: b64Encode (val / 4096 % 64) :: b64Encode (val / 64 % 64) ::
      b64Encode (val % 64) :: EncodeToString rest

/-- The end of `decodeQuantum`: the `dlen - 1` bytes of a quantum of `dlen` 6-bit values. -/
def quantumBytes (dbuf : List Nat) : List Nat :=
  let val := dbuf.getD 0 0 * 262144 + dbuf.getD 1 0 * 4096 + dbuf.getD 2 0 * 64 + dbuf.getD 3 0
  [val / 65536 % 256, val / 256 % 256, val % 256].take (dbuf.length - 1)

/-- Skips `\n` (10) and `\r` (13). -/
def skipNewlines : List Nat → List Nat
  | [] => []
  | c :: rest => if c = 10 ∨ c = 13 then skipNewlines rest else c :: rest

/-- The padding was read: what follows but newlines is trailing garbage, an error that still
delivers the quantum. -/
def decodePadded (dbuf rest : List Nat) : List Nat × Bool :=
  (quantumBytes dbuf, decide (skipNewlines rest ≠ []))

/-- The function `StdEncoding.Decode`, quantum after quantum: `dbuf` holds the 6-bit values of the
quantum being read. The result is the bytes decoded before the input ended or an error stopped the
decoding, and whether there was an error. -/
def decodeFrom : List Nat → List Nat → List Nat × Bool
  | dbuf, [] => ([], decide (dbuf ≠ []))
  | dbuf, c :: rest =>
    match b64DecodeMap c with
    | some out =>
      if dbuf.length = 3 then
        let r := decodeFrom [] rest
        (quantumBytes (dbuf ++ [out]) ++ r.1, r.2)
      else decodeFrom (dbuf ++ [out]) rest
    | none =>
      if c = 10 ∨ c = 13 then decodeFrom dbuf rest
      else if c ≠ 61 then ([], true)
      else if dbuf.length < 2 then ([], true)
      else if dbuf.length = 2 then
        match skipNewlines rest with
        | [] => ([], true)
        | c2 :: rest2 => if c2 ≠ 61 then ([], true) else decodePadded dbuf rest2
      else decodePadded dbuf rest

/-- The function `StdEncoding.DecodeString`: the decoded bytes (also those decoded before an error)
and the error flag. -/
def DecodeString (s : List Nat) : List Nat × Bool := decodeFrom [] s

/-- Modelled from the spec: the declaration of the browser driver's cookie record
(`proto.NetworkCookie`) is not part of the repository.  The attributes are those of the data
model: name, value, domain, path, expiry and the security flags.  Strings are sequences of Unicode
characters (what the driver delivers is well-formed UTF-8), the expiry is a whole number of
seconds since the epoch (`-1` for a session cookie). -/
structure NetworkCookie where
  Name : String
  Value : String
  Domain : String
  Path : String
  Expires : Int
  HTTPOnly : Bool
  Secure : Bool
deriving DecidableEq, Repr

/-! ## `encoding/json`: `Marshal` -/

/-- The digit of `hex = "0123456789abcdef"`. -/
def hexDigit (n : Nat) : Nat := if n < 10 then 48 + n else 87 + n

/-- The function `utf8.EncodeRune`. -/
def utf8Encode (n : Nat) : List Nat :=
  if n < 128 then [n]
  else if n < 2048 then [192 + n / 64, 128 + n % 64]
  else if n < 65536 then [224 + n / 4096, 128 + n / 64 % 64, 128 + n % 64]
  else [240 + n / 262144, 128 + n / 4096 % 64, 128 + n / 64 % 64, 128 + n % 64]

/-- The table `htmlSafeSet`: the ASCII characters written without escape. -/
def htmlSafe (b : Nat) : Bool :=
  decide (32 ≤ b ∧ b < 128 ∧ b ≠ 34 ∧ b ≠ 38 ∧ b ≠ 60 ∧ b ≠ 62 ∧ b ≠ 92)

/-- One character of a string, as `appendString` writes it (HTML escaping on). -/
def appendChar (c : Char) : List Nat :=
  let n := c.toNat
  if n < 128 then
    if htmlSafe n then [n]
    else if n = 92 ∨ n = 34 then [92, n]
    else if n = 8 then [92, 98]
    else if n = 12 then [92, 102]
    else if n = 10 then [92, 110]
    else if n = 13 then [92, 114]
    else if n = 9 then [92, 116]
    else [92, 117, 48, 48, hexDigit (n / 16), hexDigit (n % 16)]
  else if n = 8232 ∨ n = 8233 then [92, 117, 50, 48, 50, hexDigit (n % 16)]
  else utf8Encode n

/-- The characters of a string, each as `appendChar` writes it. -/
def appendChars : List Char → List Nat
  | [] => []
  | c :: cs => appendChar c ++ appendChars cs

/-- The encoder's `appendString`: the quoted string literal. -/
def appendString (s : String) : List Nat := 34 :: (appendChars s.data ++ [34])

/-- The decimal digits of `n`, most significant first, written in front of `acc`. -/
def formatBits : Nat → Nat → List Nat → List Nat
  | 0, _, acc => acc
  | fuel + 1, n, acc =>
    if n < 10 then (48 + n) :: acc else formatBits fuel (n / 10) ((48 + n % 10) :: acc)

/-- The function `strconv.AppendInt(_, i, 10)`. -/
def AppendInt (i : Int) : List Nat :=
  if i < 0 then 45 :: formatBits (i.natAbs + 1) i.natAbs [] else formatBits (i.natAbs + 1) i.natAbs []

/-- The literal `true` or `false`. -/
def appendBool (b : Bool) : List Nat :=
  if b then [116, 114, 117, 101] else [102, 97, 108, 115, 101]

/-- The bytes of an ASCII string constant. -/
def bytes (s : String) : List Nat := s.data.map Char.toNat

/-- The fields of an object as the struct encoder writes them: `"key":value`, with a comma
between two fields. -/
def marshalFields : List (String × List Nat) → List Nat
  | [] => []
  | [kv] => appendString kv.1 ++ 58 :: kv.2
  | kv :: kvs => appendString kv.1 ++ 58 :: kv.2 ++ 44 :: marshalFields kvs

/-- The fields of the cookie record in declaration order, each with its encoded value. -/
def cookieFields (c : NetworkCookie) : List (String × List Nat) :=
  [("name", appendString c.Name), ("value", appendString c.Value),
   ("domain", appendString c.Domain), ("path", appendString c.Path),
   ("expires", AppendInt c.Expires), ("httpOnly", appendBool c.HTTPOnly),
   ("secure", appendBool c.Secure)]

/-- The function `json.Marshal(cookie)` of a non-nil cookie: the object of its fields. -/
def Marshal (c : NetworkCookie) : List Nat :=
  123 :: (marshalFields (cookieFields c) ++ [125])

/-! ## `encoding/json`: `Unmarshal` -/

/-- A JSON text, read. -/
inductive JValue where
  | null : JValue
  | bool : Bool → JValue
  | number : List Nat → JValue
  | string : String → JValue
  | array : List JValue → JValue
  | object : List (String × JValue) → JValue

/-- White space of JSON: space, tab, carriage return, line feed. -/
def isSpace (c : Nat) : Bool := decide (c = 32 ∨ c = 9 ∨ c = 13 ∨ c = 10)

/-- The input after its leading white space. -/
def skipSpace : List Nat → List Nat
  | [] => []
  | c :: rest => if isSpace c then skipSpace rest else c :: rest

/-- The value of a hexadecimal digit, of either case. -/
def hexVal (c : Nat) : Option Nat :=
  if 48 ≤ c ∧ c ≤ 57 then some (c - 48)
  else if 97 ≤ c ∧ c ≤ 102 then some (c - 87)
  else if 65 ≤ c ∧ c ≤ 70 then some (c - 55)
  else none

/-- The value of four hexadecimal digits (`getu4`). -/
def getu4 (a b c d : Nat) : Option Nat :=
  match hexVal a, hexVal b, hexVal c, hexVal d with
  | some a, some b, some c, some d => some (a * 4096 + b * 256 + c * 16 + d)
  | _, _, _, _ => none

/-- The character of a one-letter escape. -/
def simpleEscape (e : Nat) : Option Char :=
  if e = 34 ∨ e = 92 ∨ e = 47 then some (Char.ofNat e)
  else if e = 98 then some (Char.ofNat 8)
  else if e = 102 then some (Char.ofNat 12)
  else if e = 110 then some (Char.ofNat 10)
  else if e = 114 then some (Char.ofNat 13)
  else if e = 116 then some (Char.ofNat 9)
  else none

/-- A continuation byte of UTF-8. -/
def isCont (b : Nat) : Bool := decide (128 ≤ b ∧ b ≤ 191)

/-- The first two bytes of a well-formed two-byte sequence. -/
def utf8Two (b0 b1 : Nat) : Bool := decide (194 ≤ b0 ∧ b0 ≤ 223) && isCont b1

/-- The first two bytes of a well-formed three-byte sequence (no overlong form, no surrogate). -/
def utf8ThreeHead (b0 b1 : Nat) : Bool :=
  decide ((b0 = 224 ∧ 160 ≤ b1 ∧ b1 ≤ 191) ∨
    (((225 ≤ b0 ∧ b0 ≤ 236) ∨ b0 = 238 ∨ b0 = 239) ∧ 128 ≤ b1 ∧ b1 ≤ 191) ∨
    (b0 = 237 ∧ 128 ≤ b1 ∧ b1 ≤ 159))

/-- The first two bytes of a well-formed four-byte sequence (up to U+10FFFF). -/
def utf8FourHead (b0 b1 : Nat) : Bool :=
  decide ((b0 = 240 ∧ 144 ≤ b1 ∧ b1 ≤ 191) ∨
    (241 ≤ b0 ∧ b0 ≤ 243 ∧ 128 ≤ b1 ∧ b1 ≤ 191) ∨
    (b0 = 244 ∧ 128 ≤ b1 ∧ b1 ≤ 143))

/-- Puts a character in front of the characters read after it. -/
def consChar (c : Char) (r : Option (List Char × List Nat)) : Option (List Char × List Nat) :=
  match r with
  | none => none
  | some (cs, rest) => some (c :: cs, rest)

/-- The replacement character U+FFFD. -/
def replacementChar : Char := Char.ofNat 65533

/-- The function `utf8.DecodeRune` on a sequence whose first byte `b` is not ASCII: the rune and the
number of bytes it takes; `(U+FFFD, 1)` when the bytes do not start a well-formed sequence. -/
def DecodeRune (b : Nat) (rest : List Nat) : Nat × Nat :=
  match rest with
  | [] => (65533, 1)
  | b1 :: rest1 =>
    if utf8Two b b1 then ((b - 192) * 64 + (b1 - 128), 2)
    else
      match rest1 with
      | [] => (65533, 1)
      | b2 :: rest2 =>
        if utf8ThreeHead b b1 && isCont b2 then
          ((b - 224) * 4096 + (b1 - 128) * 64 + (b2 - 128), 3)
        else
          match rest2 with
          | [] => (65533, 1)
          | b3 :: _ =>
            if utf8FourHead b b1 && isCont b2 && isCont b3 then
              ((b - 240) * 262144 + (b1 - 128) * 4096 + (b2 - 128) * 64 + (b3 - 128), 4)
            else (65533, 1)

/-- The second half of a surrogate pair: the value of a `\uXXXX` escape at the head of the input
when it is a low surrogate. -/
def lowSurrogate (s : List Nat) : Option Nat :=
  match s with
  | c1 :: c2 :: k1 :: k2 :: k3 :: k4 :: _ =>
    if c1 = 92 ∧ c2 = 117 then
      match getu4 k1 k2 k3 k4 with
      | some rr1 => if 56320 ≤ rr1 ∧ rr1 < 57344 then some rr1 else none
      | none => none
    else none
  | _ => none

/-- One step of `unquote`: the closing quote, one character of the string, or a malformed
literal; with the input that follows. -/
inductive UnquoteStep where
  | close (rest : List Nat)
  | emit (c : Char) (rest : List Nat)
  | fail

/-- The step at a `\u` escape, the input being what follows `\u`: four hexadecimal digits; a
surrogate pair of two escapes becomes one character, a surrogate without its partner U+FFFD. -/
def unicodeStep : List Nat → UnquoteStep
  | h1 :: h2 :: h3 :: h4 :: rest2 =>
    match getu4 h1 h2 h3 h4 with
    | none => UnquoteStep.fail
    | some rr =>
      if 55296 ≤ rr ∧ rr < 57344 then
        match (if rr < 56320 then lowSurrogate rest2 else none) with
        | some rr1 =>
          UnquoteStep.emit (Char.ofNat ((rr - 55296) * 1024 + (rr1 - 56320) + 65536))
            (rest2.drop 6)
        | none => UnquoteStep.emit replacementChar rest2
      else UnquoteStep.emit (Char.ofNat rr) rest2
  | _ => UnquoteStep.fail

/-- The step at an escape, the input being what follows the backslash. -/
def escapeStep : List Nat → UnquoteStep
  | [] => UnquoteStep.fail
  | e :: rest1 =>
    if e = 117 then unicodeStep rest1
    else
      match simpleEscape e with
      | some c => UnquoteStep.emit c rest1
      | none => UnquoteStep.fail

/-- The step at the head of the input: a control character is malformed, an ASCII character stands
for itself, other bytes are read as UTF-8, a byte that does not start a well-formed sequence
becoming U+FFFD. -/
def unquoteStep : List Nat → UnquoteStep
  | [] => UnquoteStep.fail
  | b :: rest =>
    if b = 34 then UnquoteStep.close rest
    else if b = 92 then escapeStep rest
    else if b < 32 then UnquoteStep.fail
    else if b < 128 then UnquoteStep.emit (Char.ofNat b) rest
    else UnquoteStep.emit (Char.ofNat (DecodeRune b rest).1) (rest.drop ((DecodeRune b rest).2 - 1))

/-- The steps of `unquote` up to the closing quote; every step takes at least one byte, so that
as many steps as the input has bytes are enough. -/
def unquoteLoop : Nat → List Nat → Option (List Char × List Nat)
  | 0, _ => none
  | fuel + 1, s =>
    match unquoteStep s with
    | UnquoteStep.close rest => some ([], rest)
    | UnquoteStep.fail => none
    | UnquoteStep.emit c rest => consChar c (unquoteLoop fuel rest)

/-- The body of a string literal after its opening quote (`unquote`): the characters up to the
closing quote and the input after it. -/
def unquoteFrom (s : List Nat) : Option (List Char × List Nat) := unquoteLoop s.length s

/-- A decimal digit. -/
def isDigit (c : Nat) : Bool := decide (48 ≤ c ∧ c ≤ 57)

/-- The sign of an exponent, if there is one, and the input after it. -/
def expSign (r : List Nat) : List Nat × List Nat :=
  match r with
  | [] => ([], [])
  | x :: r1 => if x = 43 ∨ x = 45 then ([x], r1) else ([], x :: r1)

/-- The exponent of a number literal, if there is one. -/
def scanExp (acc s : List Nat) : Option (List Nat × List Nat) :=
  match s with
  | [] => some (acc, [])
  | e :: r =>
    if e = 101 ∨ e = 69 then
      if (expSign r).2.takeWhile isDigit = [] then none
      else
        some (acc ++ e :: (expSign r).1 ++ (expSign r).2.takeWhile isDigit,
          (expSign r).2.dropWhile isDigit)
    else some (acc, e :: r)

/-- The fraction of a number literal, if there is one. -/
def scanFrac (acc s : List Nat) : Option (List Nat × List Nat) :=
  match s with
  | [] => some (acc, [])
  | p :: r =>
    if p = 46 then
      if r.takeWhile isDigit = [] then none
      else scanExp (acc ++ 46 :: r.takeWhile isDigit) (r.dropWhile isDigit)
    else scanExp acc (p :: r)

/-- The integer part of a number literal: `0`, or a digit from 1 to 9 and further digits. -/
def scanIntPart (acc s : List Nat) : Option (List Nat × List Nat) :=
  match s with
  | [] => none
  | d :: r =>
    if d = 48 then scanFrac (acc ++ [48]) r
    else if 49 ≤ d ∧ d ≤ 57 then
      scanFrac (acc ++ d :: r.takeWhile isDigit) (r.dropWhile isDigit)
    else none

/-- A number literal at the head of the input, and the input after it. -/
def scanNumber (s : List Nat) : Option (List Nat × List Nat) :=
  match s with
  | [] => none
  | c :: r => if c = 45 then scanIntPart [45] r else scanIntPart [] (c :: r)

/-- The scanner's `maxNestingDepth`. -/
def maxNestingDepth : Nat := 10000

mutual
/-- One JSON value at the head of the input (white space before it already skipped) and the input
after it; `depth` counts the arrays and objects around it. -/
def parseValue : Nat → Nat → List Nat → Option (JValue × List Nat)
  | 0, _, _ => none
  | _ + 1, _, [] => none
  | fuel + 1, depth, c :: rest =>
    if c = 123 then
      if maxNestingDepth ≤ depth then none
      else
        match skipSpace rest with
        | [] => none
        | k :: rest1 =>
          if k = 125 then some (JValue.object [], rest1)
          else
            match parseMembers fuel (depth + 1) (k :: rest1) with
            | none => none
            | some (ms, rest2) => some (JValue.object ms, rest2)
    else if c = 91 then
      if maxNestingDepth ≤ depth then none
      else
        match skipSpace rest with
        | [] => none
        | k :: rest1 =>
          if k = 93 then some (JValue.array [], rest1)
          else
            match parseElements fuel (depth + 1) (k :: rest1) with
            | none => none
            | some (vs, rest2) => some (JValue.array vs, rest2)
    else if c = 34 then
      match unquoteFrom rest with
      | none => none
      | some (cs, rest1) => some (JValue.string (String.mk cs), rest1)
    else if c = 45 ∨ isDigit c = true then
      match scanNumber (c :: rest) with
      | none => none
      | some (lit, rest1) => some (JValue.number lit, rest1)
    else
      match c :: rest with
      | 116 :: 114 :: 117 :: 101 :: rest1 => some (JValue.bool true, rest1)
      | 102 :: 97 :: 108 :: 115 :: 101 :: rest1 => some (JValue.bool false, rest1)
      | 110 :: 117 :: 108 :: 108 :: rest1 => some (JValue.null, rest1)
      | _ => none
/-- The elements of an array from the start of an element to the closing bracket. -/
def parseElements : Nat → Nat → List Nat → Option (List JValue × List Nat)
  | 0, _, _ => none
  | fuel + 1, depth, s =>
    match parseValue fuel depth s with
    | none => none
    | some (v, rest) =>
      match skipSpace rest with
      | [] => none
      | k :: rest1 =>
        if k = 93 then some ([v], rest1)
        else if k = 44 then
          match parseElements fuel depth (skipSpace rest1) with
          | none => none
          | some (vs, rest2) => some (v :: vs, rest2)
        else none
/-- The members of an object from the start of a key to the closing brace. -/
def parseMembers : Nat → Nat → List Nat → Option (List (String × JValue) × List Nat)
  | 0, _, _ => none
  | _ + 1, _, [] => none
  | fuel + 1, depth, q :: s =>
    if q = 34 then
      match unquoteFrom s with
      | none => none
      | some (key, rest) =>
        match skipSpace rest with
        | [] => none
        | colon :: rest1 =>
          if colon = 58 then
            match parseValue fuel depth (skipSpace rest1) with
            | none => none
            | some (v, rest2) =>
              match skipSpace rest2 with
              | [] => none
              | k :: rest3 =>
                if k = 125 then some ([(String.mk key, v)], rest3)
                else if k = 44 then
                  match parseMembers fuel depth (skipSpace rest3) with
                  | none => none
                  | some (ms, rest4) => some ((String.mk key, v) :: ms, rest4)
                else none
          else none
    else none
end

/-- The syntax check of `Unmarshal` (`checkValid`) together with the reading of the value: one
JSON value with white space around it and nothing else. -/
def parseJSON (data : List Nat) : Option JValue :=
  match parseValue (data.length + 1) 0 (skipSpace data) with
  | none => none
  | some (v, rest) => if skipSpace rest = [] then some v else none

/-- The fields of the cookie record. -/
inductive Field where
  | Name | Value | Domain | Path | Expires | HTTPOnly | Secure
deriving DecidableEq, Repr

/-- The JSON names of the fields. -/
def fieldNames : List (String × Field) :=
  [("name", Field.Name), ("value", Field.Value), ("domain", Field.Domain), ("path", Field.Path),
   ("expires", Field.Expires), ("httpOnly", Field.HTTPOnly), ("secure", Field.Secure)]

/-- Case folding of a key: ASCII letters to upper case, and the two characters beyond ASCII that
fold to an ASCII letter (U+017F to `S`, U+212A to `K`). -/
def foldRune (c : Char) : Char :=
  if 97 ≤ c.toNat ∧ c.toNat ≤ 122 then Char.ofNat (c.toNat - 32)
  else if c.toNat = 383 then 'S'
  else if c.toNat = 8490 then 'K'
  else c

/-- The key with every character folded. -/
def foldName (s : String) : List Char := s.data.map foldRune

/-- The field a key of the object stands for: the field of that very name, else the field whose
name is the key up to case. -/
def findField (key : String) : Option Field :=
  match fieldNames.find? (fun f => f.1 == key) with
  | some f => some f.2
  | none =>
    match fieldNames.find? (fun f => foldName f.1 == foldName key) with
    | some f => some f.2
    | none => none

/-- The number a sequence of decimal digits stands for. -/
def digitsVal (ds : List Nat) : Nat := ds.foldl (fun a d => a * 10 + (d - 48)) 0

/-- The whole number a number literal stands for, `none` when the literal has a fraction or an
exponent. -/
def parseIntLit (lit : List Nat) : Option Int :=
  match lit with
  | [] => none
  | c :: ds =>
    if c = 45 then
      if ds ≠ [] ∧ ds.all isDigit = true then some (-(digitsVal ds : Int)) else none
    else if (c :: ds).all isDigit = true then some (digitsVal (c :: ds) : Int)
    else none

/-- Stores a value in a field: `null` leaves the field as it is, a value of the field's type is
stored, any other value is a type error that leaves the field as it is. -/
def storeField (c : NetworkCookie) (f : Field) (v : JValue) : NetworkCookie × Bool :=
  match f, v with
  | _, JValue.null => (c, false)
  | Field.Name, JValue.string s => ({ c with Name := s }, false)
  | Field.Value, JValue.string s => ({ c with Value := s }, false)
  | Field.Domain, JValue.string s => ({ c with Domain := s }, false)
  | Field.Path, JValue.string s => ({ c with Path := s }, false)
  | Field.Expires, JValue.number lit =>
    match parseIntLit lit with
    | some i => ({ c with Expires := i }, false)
    | none => (c, true)
  | Field.HTTPOnly, JValue.bool b => ({ c with HTTPOnly := b }, false)
  | Field.Secure, JValue.bool b => ({ c with Secure := b }, false)
  | _, _ => (c, true)

/-- Stores the members of an object one after the other; a key that names no field is skipped, an
error does not stop the decoding. -/
def storeMembers : List (String × JValue) → NetworkCookie → NetworkCookie × Bool
  | [], c => (c, false)
  | kv :: ms, c =>
    match findField kv.1 with
    | none => storeMembers ms c
    | some f =>
      let r := storeField c f kv.2
      let r2 := storeMembers ms r.1
      (r2.1, r.2 || r2.2)

/-- The zero value of the cookie record. -/
def zeroCookie : NetworkCookie :=
  { Name := "", Value := "", Domain := "", Path := "", Expires := 0, HTTPOnly := false,
    Secure := false }

/-- The function `json.Unmarshal(data, &cookie)` for a nil `cookie`: the pointer afterwards (`none`
for nil) and whether an error is returned. A text that is not well-formed JSON leaves the pointer
nil; `null` leaves it nil without error; for every other well-formed text a record is allocated
first, also when the value is no object and a type error is returned. -/
def Unmarshal (data : List Nat) : Option NetworkCookie × Bool :=
  match parseJSON data with
  | none => (none, true)
  | some JValue.null => (none, false)
  | some (JValue.object ms) =>
    let r := storeMembers ms zeroCookie
    (some r.1, r.2)
  | some _ => (some zeroCookie, true)

/-! ## The process and its surroundings -/

/-- How a function of the program ends: it returns, it ends the process with `os.Exit`, or the
Go run time ends the process with an uncaught panic. -/
inductive Outcome (α : Type) where
  | returns : α → Outcome α
  | exit : Nat → Outcome α
  | crash : String → Outcome α
deriving DecidableEq, Repr

/-- The effects of a run, in the order of their calls. -/
inductive Event where
  | spinnerStart
  | spinnerMessage (msg : String)
  | spinnerPause
  | spinnerUnpause
  | spinnerStopMessage (msg : String)
  | spinnerStopFailMessage (msg : String)
  | spinnerStop
  | spinnerStopFail
  | launch
  | connect
  | setCookies (cookie : NetworkCookie)
  | mustPage (url : String)
  | waitRequestIdle
  | click (tag text : String)
  | race
  | input (selector text : String)
  | notify
  | beep
  | hasR (tag text : String)
  | sleep (ms : Nat)
  | getCookies
  | writeFile (path : String) (data : List Nat)
  | browserClose
  | osExit (code : Nat)
deriving DecidableEq, Repr

/-- An entry of a parsed netrc file. -/
structure Machine where
  Name : String
  Login : String
  Password : String
  Account : String
  IsDefault : Bool
deriving DecidableEq, Repr

/-- A parsed netrc file. -/
structure Netrc where
  machines : List Machine
deriving DecidableEq, Repr

/-- The function `FindMachine(name, loginName)` of the netrc library: the first entry of that name
(and of that login, when one is asked for); without one, the last `default` entry; without that,
nil. -/
def Netrc.findFrom (name loginName : String) : List Machine → Option Machine → Option Machine
  | [], d => d
  | m :: ms, d =>
    if m.Name = name ∧ (loginName = "" ∨ m.Login = loginName) then some m
    else Netrc.findFrom name loginName ms (if m.IsDefault then some m else d)

/-- The method `FindMachine` on a parsed file. -/
def Netrc.FindMachine (n : Netrc) (name loginName : String) : Option Machine :=
  Netrc.findFrom name loginName n.machines none

/-- What the operating system answers to the program. -/
structure OS where
  /-- The table of `os.LookupEnv`. -/
  env : String → Option String
  /-- The home directory of `user.Current()`, `none` when the lookup fails. -/
  currentUser : Option String
  /-- The answer of `os.UserHomeDir()`: the directory or the error text. -/
  userHomeDir : Except String String
  /-- The answer of `netrc.ParseFile(path)`, `none` for a file that is missing or does not parse. -/
  netrc : String → Option Netrc
  /-- The content of the file at a path, `none` when there is no file. -/
  files : String → Option (List Nat)
  /-- Whether the file at a path may be read. -/
  readable : String → Bool
  /-- Whether the file at a path may be written (or created). -/
  writable : String → Bool

/-- The function `os.ReadFile`: the content, `none` for the error of a file that is absent or
unreadable. -/
def ReadFile (os : OS) (path : String) : Option (List Nat) :=
  if os.readable path then os.files path else none

/-- The function `os.WriteFile(path, data, 0644)`: the file then holds exactly `data`; when the
write is refused the files stay as they are and an error is returned. -/
def WriteFile (os : OS) (path : String) (data : List Nat) : OS × Bool :=
  if os.writable path then
    ({ os with files := fun p => if p = path then some data else os.files p }, false)
  else (os, true)

/-- The time before the MFA step times out (declared, and used nowhere). -/
def MFA_TIMEOUT : Nat := 30

/-- The function `panic` of the program: stops the spinner in its failure state and exits with
status 1. -/
def panic (errorMsg : String) : List Event :=
  [Event.spinnerStopFailMessage ("Login failed error - " ++ errorMsg), Event.spinnerStopFail,
   Event.osExit 1]

/-- The function `error` of the program: a warning on the spinner. -/
def error (errorMsg : String) : List Event :=
  [Event.spinnerMessage ("Warn: " ++ errorMsg)]

/-! ## Credentials -/

/-- The function `getCredentialsFromNetrc`: the login and password of the entry `headless-sso` of
`<home>/.netrc`.  A file that does not parse is fatal; the fields are read off the result of
`FindMachine` without a test for nil. -/
def getCredentialsFromNetrc (os : OS) : List Event × Outcome (String × String) :=
  match os.currentUser with
  | none => ([], Outcome.crash "invalid memory address or nil pointer dereference")
  | some homeDir =>
    let t := [Event.spinnerMessage ("fetching credentials from " ++ homeDir ++ "/.netrc")]
    match os.netrc (homeDir ++ "/.netrc") with
    | none => (t ++ panic ".netrc file not found in HOME directory", Outcome.exit 1)
    | some f =>
      match f.FindMachine "headless-sso" "" with
      | none => (t, Outcome.crash "invalid memory address or nil pointer dereference")
      | some m => (t, Outcome.returns (m.Login, m.Password))

/-- The function `getCredentials`: the two environment variables when both are set, else the netrc
file. -/
def getCredentials (os : OS) : List Event × Outcome (String × String) :=
  match os.env "SSO_USERNAME", os.env "SSO_PASSWORD" with
  | some username, some passphrase =>
    ([Event.spinnerMessage "Using credentials from environment."],
      Outcome.returns (username, passphrase))
  | _, _ => getCredentialsFromNetrc os

/-- The reference of the specification for `getCredentials`: both variables present give their
values; otherwise the result is the login and password of the entry named `headless-sso` of the
user's netrc file.  `none` where the specification's sentence names no result. -/
def getCredentials_reference (os : OS) : Option (String × String) :=
  match os.env "SSO_USERNAME", os.env "SSO_PASSWORD" with
  | some username, some passphrase => some (username, passphrase)
  | _, _ =>
    match os.currentUser with
    | none => none
    | some homeDir =>
      match os.netrc (homeDir ++ "/.netrc") with
      | none => none
      | some f =>
        match f.machines.find? (fun m => m.Name == "headless-sso") with
        | none => none
        | some m => some (m.Login, m.Password)

/-! ## The cookie file -/

/-- The directory of `os.UserHomeDir()`, empty after an error, and the warning of the error. -/
def homeDirOrWarn (os : OS) : String × List Event :=
  match os.userHomeDir with
  | Except.ok d => (d, [])
  | Except.error e => ("", error e)

/-- The value of the variable `cookie` of `loadCookies` after `json.Unmarshal`: the file is read,
decoded and deserialized with every error discarded. -/
def loadedCookie (os : OS) : Option NetworkCookie :=
  let dirname := (homeDirOrWarn os).1
  let data := (ReadFile os (dirname ++ "/.headless-sso")).getD []
  let sEnc := (DecodeString data).1
  (Unmarshal sEnc).1

/-- The function `loadCookies`: a cookie that was read is set on the browser; `setCookies` is the
panic `MustSetCookies` raises for a cookie, if it does. -/
def loadCookies (os : OS) (setCookies : NetworkCookie → Option String) :
    List Event × Outcome Unit :=
  let t := Event.spinnerMessage "loading cookies" :: (homeDirOrWarn os).2
  match loadedCookie os with
  | none => (t, Outcome.returns ())
  | some cookie =>
    match setCookies cookie with
    | none => (t ++ [Event.setCookies cookie], Outcome.returns ())
    | some e => (t ++ [Event.setCookies cookie], Outcome.crash e)

/-- The loop of `saveCookies` over the cookies: the first cookie named `x-amz-sso_authn` is
serialized, encoded and written, and the loop is left. -/
def saveLoop (os : OS) (path : String) : List NetworkCookie → List Event × OS
  | [] => ([], os)
  | cookie :: rest =>
    if cookie.Name = "x-amz-sso_authn" then
      let data := Marshal cookie
      let sEnc := EncodeToString data
      let r := WriteFile os path sEnc
      (Event.writeFile path sEnc ::
        (if r.2 then error "Failed to save x-amz-sso_authn cookie" else []), r.1)
    else saveLoop os path rest

/-- The error a method of the browser driver panics with, as `rod.Try` hands it back. -/
inductive RodError where
  | deadlineExceeded
  | other (text : String)
deriving DecidableEq, Repr

/-- The text of the error, `err.Error()`. -/
def RodError.Error : RodError → String
  | RodError.deadlineExceeded => "context deadline exceeded"
  | RodError.other text => text

/-- The function `saveCookies`: `cookies` is what `browser.MustGetCookies()` answers, a panic or the
list. -/
def saveCookies (os : OS) (cookies : Except RodError (List NetworkCookie)) :
    List Event × OS × Option RodError :=
  let t := (homeDirOrWarn os).2 ++ [Event.getCookies]
  match cookies with
  | Except.error e => (t, os, some e)
  | Except.ok cs =>
    let r := saveLoop os ((homeDirOrWarn os).1 ++ "/.headless-sso") cs
    (t ++ r.1, r.2, none)

/-! ## The login -/

/-- The page condition that wins the race: the "Allow access" control or the username field. -/
inductive RaceWinner where
  | allowAccess
  | usernameInput
deriving DecidableEq, Repr

/-- What the browser and the page answer during one run. -/
structure World where
  os : OS
  stdin : List String
  /-- The panic of `MustLaunch`, if any. -/
  launch : Option String
  /-- The panic of `MustConnect`, if any. -/
  connect : Option String
  /-- The panic of `MustSetCookies` for a cookie, if any. -/
  setCookies : NetworkCookie → Option String
  mustPage : Option RodError
  /-- The click on "Confirm and continue". -/
  confirm : Option RodError
  /-- The race between "Allow access" and the username field. -/
  race : Except RodError RaceWinner
  inputUsername : Option RodError
  inputPassphrase : Option RodError
  /-- The answer of the poll number `k` of `page.HasR("span", "Allow access")`. -/
  hasAllow : Nat → Bool
  clickAllow : Option RodError
  /-- The answer of `page.HasR("div", "Request approved")`. -/
  hasApproved : Bool
  getCookies : Except RodError (List NetworkCookie)
  /-- The `MustClose` inside `rod.Try`. -/
  close : Option RodError
  /-- The panic of the deferred `MustClose`, if any. -/
  deferredClose : Option String

/-- The function `signIn`: the username and the passphrase, each followed by Enter. -/
def signIn (w : World) (username passphrase : String) : List Event × Option RodError :=
  match w.inputUsername with
  | some e => ([Event.input "#awsui-input-0" username], some e)
  | none =>
    ([Event.input "#awsui-input-0" username, Event.input "#awsui-input-1" passphrase],
      w.inputPassphrase)

/-- The function `mfa`: notification, beep and the spinner's message. -/
def mfa : List Event := [Event.notify, Event.beep, Event.spinnerMessage "Touch U2F"]

/-- The loop `for unauthorized { ... }` of `ssoLogin`; `k` counts the polls.  Every test of the
loop condition costs one unit of fuel, `none` means that the loop is still running when the fuel
is used up. -/
def allowLoop (w : World) : Nat → Nat → Bool → Option (List Event × Option RodError)
  | 0, _, _ => none
  | fuel + 1, k, unauthorized =>
    if unauthorized then
      if w.hasAllow k then
        match w.clickAllow with
        | some e =>
          some ([Event.hasR "span" "Allow access", Event.click "span" "Allow access"], some e)
        | none =>
          match allowLoop w fuel (k + 1) false with
          | none => none
          | some r =>
            some (Event.hasR "span" "Allow access" :: Event.click "span" "Allow access" ::
              Event.sleep 500 :: r.1, r.2)
      else
        match allowLoop w fuel (k + 1) true with
        | none => none
        | some r => some (Event.hasR "span" "Allow access" :: Event.sleep 500 :: r.1, r.2)
    else some ([], none)

/-- The end of the function given to `rod.Try`: the test for "Request approved". -/
def verify (w : World) : List Event × OS × Option RodError :=
  if w.hasApproved then
    let s := saveCookies w.os w.getCookies
    match s.2.2 with
    | some e =>
      (Event.hasR "div" "Request approved" :: Event.spinnerStopMessage "Request approved" :: s.1,
        s.2.1, some e)
    | none =>
      (Event.hasR "div" "Request approved" :: Event.spinnerStopMessage "Request approved" ::
        (s.1 ++ [Event.browserClose]), s.2.1, w.close)
  else ([Event.hasR "div" "Request approved"], w.os, none)

/-- The function given to `rod.Try`, from the approval polling on. -/
def awaitApproval (w : World) (fuel : Nat) : Option (List Event × OS × Option RodError) :=
  match allowLoop w fuel 0 true with
  | none => none
  | some (t, some e) => some (t, w.os, some e)
  | some (t, none) =>
    let v := verify w
    some (t ++ v.1, v.2.1, v.2.2)

/-- The function given to `rod.Try`: the events, the files afterwards and the panic `rod.Try`
returns as an error, if there was one. -/
def tryBody (w : World) (url username passphrase : String) (fuel : Nat) :
    Option (List Event × OS × Option RodError) :=
  match w.mustPage with
  | some e => some ([Event.mustPage url], w.os, some e)
  | none =>
    let t1 := [Event.mustPage url, Event.waitRequestIdle, Event.spinnerUnpause,
      Event.spinnerMessage "logging in", Event.click "button" "Confirm and continue"]
    match w.confirm with
    | some e => some (t1, w.os, some e)
    | none =>
      let t2 := t1 ++ [Event.spinnerMessage "waited", Event.race]
      match w.race with
      | Except.error e => some (t2, w.os, some e)
      | Except.ok RaceWinner.allowAccess =>
        match awaitApproval w fuel with
        | none => none
        | some r => some (t2 ++ r.1, r.2.1, r.2.2)
      | Except.ok RaceWinner.usernameInput =>
        let s := signIn w username passphrase
        match s.2 with
        | some e => some (t2 ++ s.1, w.os, some e)
        | none =>
          match awaitApproval w fuel with
          | none => none
          | some r => some (t2 ++ s.1 ++ mfa ++ r.1, r.2.1, r.2.2)

/-- The function `ssoLogin`: the events of the call, the files afterwards and how the call ends;
`none` while the approval polling is still running. -/
def ssoLogin (w : World) (url : String) (fuel : Nat) : Option (List Event × OS × Outcome Unit) :=
  match getCredentials w.os with
  | (t0, Outcome.exit code) => some (t0, w.os, Outcome.exit code)
  | (t0, Outcome.crash e) => some (t0, w.os, Outcome.crash e)
  | (t0, Outcome.returns (username, passphrase)) =>
    let t1 := t0 ++ [Event.spinnerMessage "init headless-browser \n", Event.spinnerPause,
      Event.launch]
    match w.launch with
    | some e => some (t1, w.os, Outcome.crash e)
    | none =>
      match w.connect with
      | some e => some (t1 ++ [Event.connect], w.os, Outcome.crash e)
      | none =>
        match loadCookies w.os w.setCookies with
        | (tl, Outcome.exit code) => some (t1 ++ Event.connect :: tl, w.os, Outcome.exit code)
        | (tl, Outcome.crash e) => some (t1 ++ Event.connect :: tl, w.os, Outcome.crash e)
        | (tl, Outcome.returns _) =>
          let t2 := t1 ++ Event.connect :: tl
          match tryBody w url username passphrase fuel with
          | none => none
          | some (tt, os, some RodError.deadlineExceeded) =>
            some (t2 ++ tt ++ panic "Timed out waiting for MFA", os, Outcome.exit 1)
          | some (tt, os, some (RodError.other text)) =>
            some (t2 ++ tt ++ panic text, os, Outcome.exit 1)
          | some (tt, os, none) =>
            match w.deferredClose with
            | some e => some (t2 ++ tt ++ [Event.browserClose], os, Outcome.crash e)
            | none => some (t2 ++ tt ++ [Event.browserClose], os, Outcome.returns ())

/-- The function `main`: the spinner is started, the URL read and the login run; a login that
returns is followed by `spinner.Stop()`, the spinner's success state, and the process ends with
status 0. -/
def main (w : World) (fuel : Nat) : Option (List Event × OS × Outcome Unit) :=
  match getURL fuel w.stdin with
  | none => none
  | some url =>
    match ssoLogin w url fuel with
    | none => none
    | some (t, os, Outcome.returns _) =>
      some (Event.spinnerStart :: Event.spinnerMessage "reading url from stdin" ::
        (t ++ [Event.spinnerStop, Event.sleep 1000]), os, Outcome.returns ())
    | some (t, os, out) =>
      some (Event.spinnerStart :: Event.spinnerMessage "reading url from stdin" :: t, os, out)

/-- The exit status of the process. -/
def exitCode : Outcome Unit → Nat
  | Outcome.returns _ => 0
  | Outcome.exit code => code
  | Outcome.crash _ => 2

/-! ## Notions used in the statements -/

/-- The path of the cookie file: `dirname + "/.headless-sso"`. -/
def cookiePath (os : OS) : String := (homeDirOrWarn os).1 ++ "/.headless-sso"

/-- The calls of `os.WriteFile` in a trace: path and data, in order. -/
def writes : List Event → List (String × List Nat)
  | [] => []
  | Event.writeFile path data :: t => (path, data) :: writes t
  | _ :: t => writes t

/-- The cookie of the specification's round-trip example. -/
def tokCookie : NetworkCookie :=
  { Name := "x-amz-sso_authn", Value := "tok123", Domain := "sso.example", Path := "/",
    Expires := -1, HTTPOnly := true, Secure := true }

/-- A cookie of another name. -/
def otherCookie (name : String) : NetworkCookie :=
  { Name := name, Value := "v", Domain := "sso.example", Path := "/", Expires := 1700000000,
    HTTPOnly := false, Secure := false }

/-- An operating system whose only file of interest, `/home/u/.headless-sso`, has the given
state. -/
def fileOS (content : Option (List Nat)) : OS :=
  { env := fun _ => none, currentUser := some "/home/u", userHomeDir := Except.ok "/home/u",
    netrc := fun _ => none,
    files := fun p => if p = "/home/u/.headless-sso" then content else none,
    readable := fun _ => true, writable := fun _ => true }

/-! ## The inputs of the examples -/

/-- The environment of the specification's first example: both variables set, no netrc file. -/
def envOnlyOS : OS :=
  { env := fun k =>
      if k = "SSO_USERNAME" then some "alice" else if k = "SSO_PASSWORD" then some "secret"
      else none,
    currentUser := some "/home/u", userHomeDir := Except.ok "/home/u",
    netrc := fun _ => none, files := fun _ => none,
    readable := fun _ => true, writable := fun _ => true }

/-- The environment of the specification's second example: no variable set, a netrc file with
the entry `headless-sso`. -/
def netrcOnlyOS : OS :=
  { env := fun _ => none,
    currentUser := some "/home/u", userHomeDir := Except.ok "/home/u",
    netrc := fun p =>
      if p = "/home/u/.netrc" then
        some { machines := [{ Name := "example.com", Login := "x", Password := "y", Account := "",
                              IsDefault := false },
                            { Name := "headless-sso", Login := "bob", Password := "pw123",
                              Account := "", IsDefault := false }] }
      else none,
    files := fun _ => none, readable := fun _ => true, writable := fun _ => true }

/-- A netrc file without the entry `headless-sso` and without a `default` entry. -/
def noEntryOS : OS :=
  { env := fun _ => none,
    currentUser := some "/home/u", userHomeDir := Except.ok "/home/u",
    netrc := fun p =>
      if p = "/home/u/.netrc" then
        some { machines := [{ Name := "example.com", Login := "x", Password := "y", Account := "",
                              IsDefault := false }] }
      else none,
    files := fun _ => none, readable := fun _ => true, writable := fun _ => true }

/-- A world in which every step before the approval polling succeeds, the page never shows
"Allow access" and "Request approved" is absent. -/
def stuckWorld : World :=
  { os := netrcOnlyOS, stdin := ["https://sso.example/device?user_code=WXYZ-ABCD"],
    launch := none, connect := none, setCookies := fun _ => none, mustPage := none,
    confirm := none, race := Except.ok RaceWinner.usernameInput,
    inputUsername := none, inputPassphrase := none,
    hasAllow := fun _ => false, clickAllow := none, hasApproved := false,
    getCookies := Except.ok [], close := none, deferredClose := none }

/-- The same page, showing "Allow access" at the first poll; "Request approved" stays absent. -/
def unapprovedWorld : World := { stuckWorld with hasAllow := fun _ => true }

/-- A world in which the button "Confirm and continue" never appears. -/
def noConfirmWorld : World :=
  { stuckWorld with confirm := some (RodError.other "cannot find element") }

/-! ## Notions of the proofs -/

/-- The bytes `v` are the encoding of the value `jv`: followed by a comma or a closing brace they
are read as `jv`, and they do not begin with white space. -/
def Encodes (v : List Nat) (jv : JValue) : Prop :=
  ∀ fuel depth k rest, (k = 44 ∨ k = 125) →
    parseValue (fuel + 1) depth (v ++ k :: rest) = some (jv, k :: rest) ∧
    skipSpace (v ++ k :: rest) = v ++ k :: rest

/-- The fields of a cookie with the values they are read back as. -/
def cookieMembers (c : NetworkCookie) : List (String × List Nat × JValue) :=
  [("name", appendString c.Name, JValue.string c.Name),
   ("value", appendString c.Value, JValue.string c.Value),
   ("domain", appendString c.Domain, JValue.string c.Domain),
   ("path", appendString c.Path, JValue.string c.Path),
   ("expires", AppendInt c.Expires, JValue.number (AppendInt c.Expires)),
   ("httpOnly", appendBool c.HTTPOnly, JValue.bool c.HTTPOnly),
   ("secure", appendBool c.Secure, JValue.bool c.Secure)]

/-- The parse of a value with fuel `f` takes at least one byte and is the parse with any fuel
that is at least the number of bytes it takes. -/
def ValueAdequate (f : Nat) : Prop :=
  ∀ d s v rest, parseValue f d s = some (v, rest) →
    rest.length < s.length ∧ ∀ g, s.length - rest.length ≤ g → parseValue g d s = some (v, rest)

/-- The same for the elements of an array. -/
def ElementsAdequate (f : Nat) : Prop :=
  ∀ d s vs rest, parseElements f d s = some (vs, rest) →
    rest.length < s.length ∧
      ∀ g, s.length - rest.length ≤ g → parseElements g d s = some (vs, rest)

/-- The same for the members of an object. -/
def MembersAdequate (f : Nat) : Prop :=
  ∀ d s ms rest, parseMembers f d s = some (ms, rest) →
    rest.length < s.length ∧
      ∀ g, s.length - rest.length ≤ g → parseMembers g d s = some (ms, rest)

/-- The words of a regular expression. -/
inductive Regex.Matches : Regex → List Char → Prop where
  | eps : Regex.Matches Regex.eps []
  | cls (p : Char → Bool) (c : Char) : p c = true → Regex.Matches (Regex.cls p) [c]
  | cat (r s : Regex) (u v : List Char) :
      Regex.Matches r u → Regex.Matches s v → Regex.Matches (Regex.cat r s) (u ++ v)
  | altLeft (r s : Regex) (u : List Char) : Regex.Matches r u → Regex.Matches (Regex.alt r s) u
  | altRight (r s : Regex) (u : List Char) : Regex.Matches s u → Regex.Matches (Regex.alt r s) u
  | starNil (r : Regex) : Regex.Matches (Regex.star r) []
  | starCons (r : Regex) (u v : List Char) :
      Regex.Matches r u → Regex.Matches (Regex.star r) v → Regex.Matches (Regex.star r) (u ++ v)

/-! ## The matcher decides the words of the expression -/

theorem Regex.nullable_iff (r : Regex) : r.nullable = true ↔ Regex.Matches r [] := by
  induction r with
  | empty => simp [Regex.nullable]; intro h; cases h
  | eps => simp [Regex.nullable]; exact Regex.Matches.eps
  | cls p => simp [Regex.nullable]; intro h; cases h
  | cat r s ihr ihs =>
    simp only [Regex.nullable, Bool.and_eq_true, ihr, ihs]
    constructor
    · rintro ⟨h1, h2⟩
      exact Regex.Matches.cat r s [] [] h1 h2
    · intro h
      generalize hw : ([] : List Char) = w at h
      cases h with
      | cat _ _ u v h1 h2 =>
        obtain ⟨hu, hv⟩ := List.append_eq_nil.1 hw.symm
        subst hu hv
        exact ⟨h1, h2⟩
  | alt r s ihr ihs =>
    simp only [Regex.nullable, Bool.or_eq_true, ihr, ihs]
    constructor
    · rintro (h | h)
      · exact Regex.Matches.altLeft r s [] h
      · exact Regex.Matches.altRight r s [] h
    · intro h
      cases h with
      | altLeft _ _ _ h => exact Or.inl h
      | altRight _ _ _ h => exact Or.inr h
  | star r _ => simp [Regex.nullable]; exact Regex.Matches.starNil r

theorem Regex.star_cons_split (r : Regex) (w : List Char) (h : Regex.Matches (Regex.star r) w) :
    ∀ c s, w = c :: s →
      ∃ u v, s = u ++ v ∧ Regex.Matches r (c :: u) ∧ Regex.Matches (Regex.star r) v := by
  generalize hq : Regex.star r = q at h
  induction h with
  | eps => cases hq
  | cls _ _ _ => cases hq
  | cat _ _ _ _ _ _ _ _ => cases hq
  | altLeft _ _ _ _ _ => cases hq
  | altRight _ _ _ _ _ => cases hq
  | starNil _ => intro c s hw; cases hw
  | starCons r2 u v h1 h2 _ ih2 =>
    cases hq
    intro c s hw
    cases u with
    | nil => exact ih2 rfl c s hw
    | cons x u2 =>
      simp only [List.cons_append, List.cons.injEq] at hw
      obtain ⟨rfl, rfl⟩ := hw
      exact ⟨u2, v, rfl, h1, h2⟩

theorem Regex.deriv_iff (c : Char) (r : Regex) :
    ∀ s, Regex.Matches (r.deriv c) s ↔ Regex.Matches r (c :: s) := by
  induction r with
  | empty => intro s; simp only [Regex.deriv]; constructor <;> (intro h; cases h)
  | eps => intro s; simp only [Regex.deriv]; constructor <;> (intro h; cases h)
  | cls p =>
    intro s
    simp only [Regex.deriv]
    by_cases hp : p c = true
    · simp only [hp, if_true]
      constructor
      · intro h
        cases h
        exact Regex.Matches.cls p c hp
      · intro h
        cases h
        exact Regex.Matches.eps
    · simp only [hp]
      constructor
      · intro h; cases h
      · intro h
        cases h with
        | cls _ _ h => exact absurd h hp
  | cat r s ihr ihs =>
    intro w
    have hcat : Regex.Matches ((r.deriv c).cat s) w → Regex.Matches (r.cat s) (c :: w) := by
      intro h
      cases h with
      | cat _ _ u v h1 h2 =>
        have := Regex.Matches.cat r s (c :: u) v ((ihr u).1 h1) h2
        simpa using this
    have hback : Regex.Matches (r.cat s) (c :: w) →
        Regex.Matches ((r.deriv c).cat s) w ∨
          (Regex.Matches r [] ∧ Regex.Matches (s.deriv c) w) := by
      intro h
      generalize hw : c :: w = cw at h
      cases h with
      | cat _ _ u v h1 h2 =>
        cases u with
        | nil =>
          simp only [List.nil_append] at hw
          subst hw
          exact Or.inr ⟨h1, (ihs w).2 h2⟩
        | cons x u2 =>
          simp only [List.cons_append, List.cons.injEq] at hw
          obtain ⟨rfl, rfl⟩ := hw
          exact Or.inl (Regex.Matches.cat _ _ u2 v ((ihr u2).2 h1) h2)
    simp only [Regex.deriv]
    by_cases hn : r.nullable = true
    · simp only [hn, if_true]
      constructor
      · intro h
        cases h with
        | altLeft _ _ _ h => exact hcat h
        | altRight _ _ _ h =>
          have := Regex.Matches.cat r s [] (c :: w) ((Regex.nullable_iff r).1 hn) ((ihs w).1 h)
          simpa using this
      · intro h
        rcases hback h with h | ⟨-, h⟩
        · exact Regex.Matches.altLeft _ _ _ h
        · exact Regex.Matches.altRight _ _ _ h
    · simp only [hn]
      constructor
      · exact hcat
      · intro h
        rcases hback h with h | ⟨h0, -⟩
        · exact h
        · exact absurd ((Regex.nullable_iff r).2 h0) hn
  | alt r s ihr ihs =>
    intro w
    simp only [Regex.deriv]
    constructor
    · intro h
      cases h with
      | altLeft _ _ _ h => exact Regex.Matches.altLeft _ _ _ ((ihr w).1 h)
      | altRight _ _ _ h => exact Regex.Matches.altRight _ _ _ ((ihs w).1 h)
    · intro h
      cases h with
      | altLeft _ _ _ h => exact Regex.Matches.altLeft _ _ _ ((ihr w).2 h)
      | altRight _ _ _ h => exact Regex.Matches.altRight _ _ _ ((ihs w).2 h)
  | star r ih =>
    intro w
    simp only [Regex.deriv]
    constructor
    · intro h
      cases h with
      | cat _ _ u v h1 h2 =>
        have := Regex.Matches.starCons r (c :: u) v ((ih u).1 h1) h2
        simpa using this
    · intro h
      obtain ⟨u, v, rfl, h1, h2⟩ := Regex.star_cons_split r _ h c w rfl
      exact Regex.Matches.cat _ _ u v ((ih u).2 h1) h2

/-- The matcher answers `true` exactly when a prefix of the text is a word of the expression:
the search of a pattern that starts with `^`. -/
theorem Regex.matchPrefix_iff (r : Regex) (s : List Char) :
    r.matchPrefix s = true ↔ ∃ u v, s = u ++ v ∧ Regex.Matches r u := by
  induction s generalizing r with
  | nil =>
    simp only [Regex.matchPrefix, Regex.nullable_iff]
    constructor
    · intro h; exact ⟨[], [], rfl, h⟩
    · rintro ⟨u, v, huv, h⟩
      obtain ⟨hu, -⟩ := List.append_eq_nil.1 huv.symm
      subst hu
      exact h
  | cons c cs ih =>
    simp only [Regex.matchPrefix, Bool.or_eq_true, Regex.nullable_iff, ih]
    constructor
    · rintro (h | ⟨u, v, rfl, h⟩)
      · exact ⟨[], c :: cs, rfl, h⟩
      · exact ⟨c :: u, v, rfl, (Regex.deriv_iff c r u).1 h⟩
    · rintro ⟨u, v, huv, h⟩
      cases u with
      | nil => exact Or.inl h
      | cons x u2 =>
        simp only [List.cons_append, List.cons.injEq] at huv
        obtain ⟨rfl, rfl⟩ := huv
        exact Or.inr ⟨u2, v, rfl, (Regex.deriv_iff c r u2).2 h⟩

/-! ## URL intake -/

theorem MatchString_ne_empty {t : String} (h : MatchString t = true) : t ≠ "" := by
  rintro rfl
  revert h
  decide

theorem getURLLoop_done (fuel : Nat) (sc : Scanner) {url : String} (h : url ≠ "") :
    getURLLoop (fuel + 1) sc url = some url := by
  simp [getURLLoop, h]

theorem getURLLoop_skip (pre post : List String) (l tok : String)
    (hpre : ∀ x ∈ pre, MatchString x = false) (hl : MatchString l = true) :
    ∀ fuel, pre.length + 2 ≤ fuel →
      getURLLoop fuel { pending := pre ++ l :: post, token := tok } "" = some l := by
  induction pre generalizing tok with
  | nil =>
    intro fuel hf
    obtain ⟨k, rfl⟩ : ∃ k, fuel = k + 2 := ⟨fuel - 2, by simp at hf; omega⟩
    simp [getURLLoop, Scanner.Scan, Scanner.Text, hl, MatchString_ne_empty hl]
  | cons p ps ih =>
    intro fuel hf
    obtain ⟨k, rfl⟩ : ∃ k, fuel = k + 1 := ⟨fuel - 1, by simp at hf; omega⟩
    have hp : MatchString p = false := hpre p (by simp)
    have := ih p (fun x hx => hpre x (by simp [hx])) k (by simp at hf ⊢; omega)
    simpa [getURLLoop, Scanner.Scan, Scanner.Text, hp] using this

theorem getURLLoop_exhausted (tok : String) :
    ∀ fuel, getURLLoop fuel { pending := [], token := tok } "" = none := by
  intro fuel
  induction fuel generalizing tok with
  | zero => rfl
  | succ k ih =>
    have h0 : MatchString "" = false := by decide
    simpa [getURLLoop, Scanner.Scan, Scanner.Text, h0] using ih ""

theorem getURLLoop_no_match (lines : List String) (tok : String)
    (h : ∀ x ∈ lines, MatchString x = false) :
    ∀ fuel, getURLLoop fuel { pending := lines, token := tok } "" = none := by
  induction lines generalizing tok with
  | nil => exact getURLLoop_exhausted tok
  | cons p ps ih =>
    intro fuel
    cases fuel with
    | zero => rfl
    | succ k =>
      have hp : MatchString p = false := h p (by simp)
      simpa [getURLLoop, Scanner.Scan, Scanner.Text, hp] using
        ih p (fun x hx => h x (by simp [hx])) k

theorem exists_first_match (lines : List String) (h : ∃ l ∈ lines, MatchString l = true) :
    ∃ pre l post, lines = pre ++ l :: post ∧ (∀ x ∈ pre, MatchString x = false) ∧
      MatchString l = true := by
  induction lines with
  | nil => simp at h
  | cons p ps ih =>
    by_cases hp : MatchString p = true
    · exact ⟨[], p, ps, rfl, by simp, hp⟩
    · have h' : ∃ l ∈ ps, MatchString l = true := by
        obtain ⟨l, hl, hm⟩ := h
        rcases List.mem_cons.1 hl with rfl | hl
        · exact absurd hm hp
        · exact ⟨l, hl, hm⟩
      obtain ⟨pre, l, post, rfl, hpre, hl⟩ := ih h'
      refine ⟨p :: pre, l, post, rfl, ?_, hl⟩
      intro x hx
      rcases List.mem_cons.1 hx with rfl | hx
      · simpa using hp
      · exact hpre x hx

/-- C1: when some stdin line matches the pattern, `getURL` returns the matching line of lowest
index, unchanged, every earlier line being a non-matching line that was skipped; `i + 2` tests of
the loop condition suffice. -/
theorem getURL_returns_first_match (lines : List String)
    (h : ∃ l ∈ lines, MatchString l = true) :
    ∃ i, ∃ hi : i < lines.length,
      MatchString (lines.get ⟨i, hi⟩) = true ∧
      (∀ j, ∀ hj : j < lines.length, j < i → MatchString (lines.get ⟨j, hj⟩) = false) ∧
      ∀ fuel, i + 2 ≤ fuel → getURL fuel lines = some (lines.get ⟨i, hi⟩) := by
  obtain ⟨pre, l, post, rfl, hpre, hl⟩ := exists_first_match lines h
  have hget : (pre ++ l :: post).get ⟨pre.length, by simp⟩ = l := by
    simp [List.getElem_append_right]
  refine ⟨pre.length, by simp, by rw [hget]; exact hl, ?_, ?_⟩
  · intro j hj hji
    have : (pre ++ l :: post).get ⟨j, hj⟩ = pre.get ⟨j, hji⟩ := by
      simp [List.getElem_append_left, hji]
    rw [this]
    exact hpre _ (List.get_mem _ _ _)
  · intro fuel hf
    rw [hget]
    exact getURLLoop_skip pre post l "" hpre hl fuel hf

/-- A run of `getURL` on the three lines of the specification's example. -/
theorem getURL_returns_first_match_witness :
    ∃ i, ∃ hi : i < ["hello", "https://x/start?user_code=AB",
        "https://sso.example/device?user_code=WXYZ-ABCD"].length,
      MatchString (["hello", "https://x/start?user_code=AB",
        "https://sso.example/device?user_code=WXYZ-ABCD"].get ⟨i, hi⟩) = true ∧
      (∀ j, ∀ hj : j < ["hello", "https://x/start?user_code=AB",
        "https://sso.example/device?user_code=WXYZ-ABCD"].length, j < i →
        MatchString (["hello", "https://x/start?user_code=AB",
          "https://sso.example/device?user_code=WXYZ-ABCD"].get ⟨j, hj⟩) = false) ∧
      ∀ fuel, i + 2 ≤ fuel →
        getURL fuel ["hello", "https://x/start?user_code=AB",
          "https://sso.example/device?user_code=WXYZ-ABCD"] =
          some (["hello", "https://x/start?user_code=AB",
            "https://sso.example/device?user_code=WXYZ-ABCD"].get ⟨i, hi⟩) :=
  getURL_returns_first_match _
    ⟨"https://sso.example/device?user_code=WXYZ-ABCD", by simp, by decide⟩

/-- C10: when no stdin line matches (the empty input included), the loop of `getURL` is still
running after any number of iterations: the end of input does not stop it. -/
theorem getURL_no_match_never_returns (lines : List String)
    (h : ∀ l ∈ lines, MatchString l = false) : ∀ fuel, getURL fuel lines = none :=
  getURLLoop_no_match lines "" h

theorem getURL_no_match_never_returns_witness :
    (∀ l ∈ ["hello", "https://x/start?user_code=AB"], MatchString l = false) ∧
      ∀ fuel, getURL fuel ["hello", "https://x/start?user_code=AB"] = none :=
  ⟨by decide, getURL_no_match_never_returns _ (by decide)⟩

/-- The example of the specification, run: the third line is returned after four tests of the loop
condition. -/
theorem getURL_spec_example :
    getURL 4 ["hello", "https://x/start?user_code=AB",
        "https://sso.example/device?user_code=WXYZ-ABCD"] =
      some "https://sso.example/device?user_code=WXYZ-ABCD" := by
  decide

/-! ## Credentials -/

theorem findFrom_of_find (name : String) (ms : List Machine) (d : Option Machine) (m : Machine)
    (h : ms.find? (fun x => x.Name == name) = some m) :
    Netrc.findFrom name "" ms d = some m := by
  induction ms generalizing d with
  | nil => simp at h
  | cons x xs ih =>
    by_cases hx : x.Name = name
    · simp [List.find?, hx] at h
      subst h
      simp [Netrc.findFrom, hx]
    · have hx' : (x.Name == name) = false := by simpa using hx
      simp only [List.find?, hx'] at h
      simp only [Netrc.findFrom, hx, false_and, if_false]
      exact ih _ h

/-- C3: `getCredentials` agrees with the reference of the specification: both variables present
(an empty value included) give exactly their values, whatever the netrc file is, and the netrc
file is not consulted; otherwise the result is the login and password of the netrc entry
`headless-sso`, whichever single variable is set. -/
theorem getCredentials_refines_reference (os : OS) :
    (∀ u p, os.env "SSO_USERNAME" = some u → os.env "SSO_PASSWORD" = some p →
      getCredentials_reference os = some (u, p) ∧
      getCredentials os =
        ([Event.spinnerMessage "Using credentials from environment."], Outcome.returns (u, p))) ∧
    (∀ r, getCredentials_reference os = some r → (getCredentials os).2 = Outcome.returns r) := by
  constructor
  · intro u p hu hp
    simp [getCredentials_reference, getCredentials, hu, hp]
  · intro r h
    unfold getCredentials_reference at h
    unfold getCredentials
    split at h
    · rename_i u p hu hp
      simp only [hu, hp]
      simpa [eq_comm] using h
    · rename_i hnot
      · unfold getCredentialsFromNetrc
        cases hc : os.currentUser with
        | none => simp [hc] at h
        | some home =>
          simp only [hc] at h ⊢
          cases hf : os.netrc (home ++ "/.netrc") with
          | none => simp [hf] at h
          | some f =>
            simp only [hf] at h ⊢
            cases hm : f.machines.find? (fun m => m.Name == "headless-sso") with
            | none => simp [hm] at h
            | some m =>
              simp only [hm, Option.some.injEq] at h
              have := findFrom_of_find "headless-sso" f.machines none m hm
              simp only [Netrc.FindMachine, this]
              rw [← h]

theorem getCredentials_refines_reference_witness :
    (getCredentials envOnlyOS).2 = Outcome.returns ("alice", "secret") ∧
    (getCredentials netrcOnlyOS).2 = Outcome.returns ("bob", "pw123") :=
  ⟨(getCredentials_refines_reference envOnlyOS).2 ("alice", "secret") (by decide),
   (getCredentials_refines_reference netrcOnlyOS).2 ("bob", "pw123") (by decide)⟩

/-- C9: for a netrc file that parses and in which the lookup of `headless-sso` finds no entry,
`getCredentialsFromNetrc` does not return the pair of empty strings: reading the login off the
nil result ends the process with a run-time panic. -/
theorem getCredentialsFromNetrc_no_entry_crashes (os : OS) (home : String) (f : Netrc)
    (hu : os.currentUser = some home) (hf : os.netrc (home ++ "/.netrc") = some f)
    (hm : f.FindMachine "headless-sso" "" = none) :
    (getCredentialsFromNetrc os).2 =
        Outcome.crash "invalid memory address or nil pointer dereference" ∧
      (getCredentialsFromNetrc os).2 ≠ Outcome.returns ("", "") := by
  simp [getCredentialsFromNetrc, hu, hf, hm]

theorem getCredentialsFromNetrc_no_entry_crashes_witness :
    (getCredentialsFromNetrc noEntryOS).2 =
        Outcome.crash "invalid memory address or nil pointer dereference" ∧
      (getCredentialsFromNetrc noEntryOS).2 ≠ Outcome.returns ("", "") :=
  getCredentialsFromNetrc_no_entry_crashes noEntryOS "/home/u"
    { machines := [{ Name := "example.com", Login := "x", Password := "y", Account := "",
                     IsDefault := false }] }
    rfl (by decide) (by decide)
theorem b64DecodeMap_encode (n : Nat) (h : n < 64) : b64DecodeMap (b64Encode n) = some n := by
  unfold b64DecodeMap b64Encode
  split_ifs <;> first | omega | (congr 1; omega)

theorem quantumBytes_four (a b c : Nat) (ha : a < 256) (hb : b < 256) (hc : c < 256) :
    quantumBytes [(a * 65536 + b * 256 + c) / 262144 % 64, (a * 65536 + b * 256 + c) / 4096 % 64,
      (a * 65536 + b * 256 + c) / 64 % 64, (a * 65536 + b * 256 + c) % 64] = [a, b, c] := by
  simp [quantumBytes]
  refine ⟨?_, ?_, ?_⟩ <;> omega

theorem b64DecodeMap_pad : b64DecodeMap 61 = none := by decide

theorem DecodeString_EncodeToString (bs : List Nat) (h : ∀ b ∈ bs, b < 256) :
    DecodeString (EncodeToString bs) = (bs, false) := by
  unfold DecodeString
  induction bs using EncodeToString.induct with
  | case1 => rfl
  | case2 a =>
    have ha : a < 256 := h a (by simp)
    simp only [EncodeToString]
    simp [decodeFrom, decodePadded, skipNewlines, b64DecodeMap_encode, Nat.mod_lt,
      b64DecodeMap_pad, quantumBytes]
    omega
  | case3 a b =>
    have ha : a < 256 := h a (by simp)
    have hb : b < 256 := h b (by simp)
    simp only [EncodeToString]
    simp [decodeFrom, decodePadded, skipNewlines, b64DecodeMap_encode, Nat.mod_lt,
      b64DecodeMap_pad, quantumBytes]
    constructor <;> omega
  | case4 a b c rest ih =>
    have ha : a < 256 := h a (by simp)
    have hb : b < 256 := h b (by simp)
    have hc : c < 256 := h c (by simp)
    have ih' := ih (fun x hx => h x (by simp [hx]))
    simp only [EncodeToString]
    simp [decodeFrom, b64DecodeMap_encode, Nat.mod_lt, ih', quantumBytes_four a b c ha hb hc]

/-! ## String literals: `unquote` undoes `appendString` -/

theorem char_valid (c : Char) : c.toNat < 55296 ∨ (57343 < c.toNat ∧ c.toNat < 1114112) :=
  c.valid

theorem unquoteStep_ascii (b : Nat) (tail : List Nat) (h1 : b ≠ 34) (h2 : b ≠ 92)
    (h3 : 32 ≤ b) (h4 : b < 128) :
    unquoteStep (b :: tail) = UnquoteStep.emit (Char.ofNat b) tail := by
  have : ¬ b < 32 := by omega
  simp [unquoteStep, h1, h2, h4, this]

theorem unquoteStep_simple (e : Nat) (c : Char) (tail : List Nat) (he : e ≠ 117)
    (hs : simpleEscape e = some c) :
    unquoteStep (92 :: e :: tail) = UnquoteStep.emit c tail := by
  simp [unquoteStep, escapeStep, he, hs]

theorem unquoteStep_u4 (h1 h2 h3 h4 rr : Nat) (tail : List Nat)
    (hg : getu4 h1 h2 h3 h4 = some rr) (hns : rr < 55296 ∨ 57344 ≤ rr) :
    unquoteStep (92 :: 117 :: h1 :: h2 :: h3 :: h4 :: tail) =
      UnquoteStep.emit (Char.ofNat rr) tail := by
  have : ¬ (55296 ≤ rr ∧ rr < 57344) := by omega
  simp [unquoteStep, escapeStep, unicodeStep, hg, this]

theorem unquoteStep_two (b0 b1 : Nat) (tail : List Nat) (h0 : 194 ≤ b0 ∧ b0 ≤ 223)
    (h1 : 128 ≤ b1 ∧ b1 ≤ 191) :
    unquoteStep (b0 :: b1 :: tail) =
      UnquoteStep.emit (Char.ofNat ((b0 - 192) * 64 + (b1 - 128))) tail := by
  have e1 : b0 ≠ 34 := by omega
  have e2 : b0 ≠ 92 := by omega
  have e3 : ¬ b0 < 32 := by omega
  have e4 : ¬ b0 < 128 := by omega
  have d : DecodeRune b0 (b1 :: tail) = ((b0 - 192) * 64 + (b1 - 128), 2) := by
    simp [DecodeRune, utf8Two, isCont, h0, h1]
  simp [unquoteStep, e1, e2, e3, e4, d]

theorem unquoteStep_three (b0 b1 b2 : Nat) (tail : List Nat) (h0 : 224 ≤ b0 ∧ b0 ≤ 239)
    (h1 : 128 ≤ b1 ∧ b1 ≤ 191) (h2 : 128 ≤ b2 ∧ b2 ≤ 191)
    (hlo : b0 = 224 → 160 ≤ b1) (hsur : b0 = 237 → b1 ≤ 159) :
    unquoteStep (b0 :: b1 :: b2 :: tail) =
      UnquoteStep.emit (Char.ofNat ((b0 - 224) * 4096 + (b1 - 128) * 64 + (b2 - 128))) tail := by
  have e1 : b0 ≠ 34 := by omega
  have e2 : b0 ≠ 92 := by omega
  have e3 : ¬ b0 < 32 := by omega
  have e4 : ¬ b0 < 128 := by omega
  have t2 : utf8Two b0 b1 = false := by
    simp [utf8Two]; omega
  have t3 : utf8ThreeHead b0 b1 = true := by
    simp [utf8ThreeHead]; omega
  have d : DecodeRune b0 (b1 :: b2 :: tail) =
      ((b0 - 224) * 4096 + (b1 - 128) * 64 + (b2 - 128), 3) := by
    simp [DecodeRune, t2, t3, isCont, h2]
  simp [unquoteStep, e1, e2, e3, e4, d]

theorem unquoteStep_four (b0 b1 b2 b3 : Nat) (tail : List Nat) (h0 : 240 ≤ b0 ∧ b0 ≤ 244)
    (h1 : 128 ≤ b1 ∧ b1 ≤ 191) (h2 : 128 ≤ b2 ∧ b2 ≤ 191) (h3 : 128 ≤ b3 ∧ b3 ≤ 191)
    (hlo : b0 = 240 → 144 ≤ b1) (hhi : b0 = 244 → b1 ≤ 143) :
    unquoteStep (b0 :: b1 :: b2 :: b3 :: tail) =
      UnquoteStep.emit (Char.ofNat ((b0 - 240) * 262144 + (b1 - 128) * 4096 + (b2 - 128) * 64 +
        (b3 - 128))) tail := by
  have e1 : b0 ≠ 34 := by omega
  have e2 : b0 ≠ 92 := by omega
  have e3 : ¬ b0 < 32 := by omega
  have e4 : ¬ b0 < 128 := by omega
  have t2 : utf8Two b0 b1 = false := by
    simp [utf8Two]; omega
  have t3 : utf8ThreeHead b0 b1 = false := by
    simp [utf8ThreeHead]; omega
  have t4 : utf8FourHead b0 b1 = true := by
    simp [utf8FourHead]; omega
  have d : DecodeRune b0 (b1 :: b2 :: b3 :: tail) =
      ((b0 - 240) * 262144 + (b1 - 128) * 4096 + (b2 - 128) * 64 + (b3 - 128), 4) := by
    simp [DecodeRune, t2, t3, t4, isCont, h2, h3]
  simp [unquoteStep, e1, e2, e3, e4, d]

theorem hexVal_hexDigit (k : Nat) (h : k < 16) : hexVal (hexDigit k) = some k := by
  unfold hexVal hexDigit
  split_ifs <;> first | omega | (congr 1; omega)

theorem unquoteStep_appendChar (c : Char) (tail : List Nat) :
    unquoteStep (appendChar c ++ tail) = UnquoteStep.emit c tail := by
  have hv := char_valid c
  have hc : Char.ofNat c.toNat = c := Char.ofNat_toNat c
  unfold appendChar
  generalize c.toNat = n at hv hc ⊢
  subst hc
  by_cases h128 : n < 128
  · simp only [h128, if_true]
    by_cases hs : htmlSafe n = true
    · simp only [hs, if_true]
      simp only [htmlSafe, decide_eq_true_eq] at hs
      exact unquoteStep_ascii n tail (by omega) (by omega) (by omega) (by omega)
    · simp only [hs, if_false]
      simp only [htmlSafe, decide_eq_true_eq] at hs
      by_cases h1 : n = 92 ∨ n = 34
      · simp only [h1, if_true]
        rcases h1 with rfl | rfl <;> exact unquoteStep_simple _ _ tail (by decide) (by decide)
      · simp only [h1, if_false]
        by_cases h8 : n = 8
        · subst h8; exact unquoteStep_simple _ _ tail (by decide) (by decide)
        simp only [h8, if_false]
        by_cases h12 : n = 12
        · subst h12; exact unquoteStep_simple _ _ tail (by decide) (by decide)
        simp only [h12, if_false]
        by_cases h10 : n = 10
        · subst h10; exact unquoteStep_simple _ _ tail (by decide) (by decide)
        simp only [h10, if_false]
        by_cases h13 : n = 13
        · subst h13; exact unquoteStep_simple _ _ tail (by decide) (by decide)
        simp only [h13, if_false]
        by_cases h9 : n = 9
        · subst h9; exact unquoteStep_simple _ _ tail (by decide) (by decide)
        simp only [h9, if_false]
        refine unquoteStep_u4 48 48 _ _ n tail ?_ (by omega)
        have a1 := hexVal_hexDigit (n / 16) (by omega)
        have a2 := hexVal_hexDigit (n % 16) (by omega)
        have a0 : hexVal 48 = some 0 := by decide
        simp only [getu4, a0, a1, a2]
        congr 1
        omega
  · simp only [h128, if_false]
    by_cases hls : n = 8232 ∨ n = 8233
    · simp only [hls, if_true]
      refine unquoteStep_u4 50 48 50 _ n tail ?_ (by omega)
      have a2 := hexVal_hexDigit (n % 16) (by omega)
      have a0 : hexVal 48 = some 0 := by decide
      have a5 : hexVal 50 = some 2 := by decide
      simp only [getu4, a0, a5, a2]
      congr 1
      omega
    · simp only [hls, if_false]
      unfold utf8Encode
      simp only [h128, if_false]
      by_cases h2 : n < 2048
      · simp only [h2, if_true]
        have := unquoteStep_two (192 + n / 64) (128 + n % 64) tail (by omega) (by omega)
        have e : (192 + n / 64 - 192) * 64 + (128 + n % 64 - 128) = n := by omega
        rw [e] at this
        exact this
      · simp only [h2, if_false]
        by_cases h3 : n < 65536
        · simp only [h3, if_true]
          have := unquoteStep_three (224 + n / 4096) (128 + n / 64 % 64) (128 + n % 64) tail
            (by omega) (by omega) (by omega) (by omega) (by omega)
          have e : (224 + n / 4096 - 224) * 4096 + (128 + n / 64 % 64 - 128) * 64 +
              (128 + n % 64 - 128) = n := by omega
          rw [e] at this
          exact this
        · simp only [h3, if_false]
          have := unquoteStep_four (240 + n / 262144) (128 + n / 4096 % 64) (128 + n / 64 % 64)
            (128 + n % 64) tail (by omega) (by omega) (by omega) (by omega) (by omega) (by omega)
          have e : (240 + n / 262144 - 240) * 262144 + (128 + n / 4096 % 64 - 128) * 4096 +
              (128 + n / 64 % 64 - 128) * 64 + (128 + n % 64 - 128) = n := by omega
          rw [e] at this
          exact this

theorem unquoteLoop_appendChars (cs : List Char) (rest : List Nat) :
    ∀ fuel, cs.length < fuel → unquoteLoop fuel (appendChars cs ++ 34 :: rest) = some (cs, rest) := by
  induction cs with
  | nil =>
    intro fuel hf
    obtain ⟨k, rfl⟩ : ∃ k, fuel = k + 1 := ⟨fuel - 1, by simp at hf; omega⟩
    simp [unquoteLoop, appendChars, unquoteStep]
  | cons c cs ih =>
    intro fuel hf
    obtain ⟨k, rfl⟩ : ∃ k, fuel = k + 1 := ⟨fuel - 1, by simp at hf; omega⟩
    have := ih k (by simp at hf; omega)
    simp only [unquoteLoop, appendChars, List.append_assoc, unquoteStep_appendChar, this, consChar]

theorem appendChar_length_pos (c : Char) : 0 < (appendChar c).length := by
  unfold appendChar utf8Encode
  simp only []
  split_ifs <;> simp

theorem appendChars_length (cs : List Char) : cs.length ≤ (appendChars cs).length := by
  induction cs with
  | nil => simp [appendChars]
  | cons c cs ih =>
    have := appendChar_length_pos c
    simp only [appendChars, List.length_append, List.length_cons]
    omega

/-- Reading a string literal gives back the string that was written. -/
theorem unquoteFrom_appendString (s : String) (rest : List Nat) :
    unquoteFrom (appendChars s.data ++ 34 :: rest) = some (s.data, rest) := by
  unfold unquoteFrom
  apply unquoteLoop_appendChars
  have := appendChars_length s.data
  simp only [List.length_append, List.length_cons]
  omega

/-! ## Number literals: the scanner and `parseIntLit` undo `AppendInt` -/

theorem takeWhile_append_stop (p : Nat → Bool) (l : List Nat) (x : Nat) (r : List Nat)
    (hl : ∀ d ∈ l, p d = true) (hx : p x = false) :
    (l ++ x :: r).takeWhile p = l ∧ (l ++ x :: r).dropWhile p = x :: r := by
  induction l with
  | nil => simp [List.takeWhile, List.dropWhile, hx]
  | cons d ds ih =>
    have hd : p d = true := hl d (by simp)
    have := ih (fun y hy => hl y (by simp [hy]))
    simp [List.takeWhile, List.dropWhile, hd, this]

theorem digitsVal_append (ds : List Nat) (x : Nat) :
    digitsVal (ds ++ [x]) = digitsVal ds * 10 + (x - 48) := by
  simp [digitsVal, List.foldl_append]

/-- The digits `formatBits` writes: all digits, no leading zero but for `0` itself, with the
value `n`. -/
theorem formatBits_spec (n : Nat) :
    ∀ fuel acc, n < fuel →
      ∃ ds, formatBits fuel n acc = ds ++ acc ∧ (∀ d ∈ ds, isDigit d = true) ∧
        digitsVal ds = n ∧
        ((ds = [48] ∧ n = 0) ∨ ∃ d ds1, ds = d :: ds1 ∧ 49 ≤ d ∧ d ≤ 57) := by
  induction n using Nat.strong_induction_on with
  | _ n ih =>
    intro fuel acc hf
    obtain ⟨k, rfl⟩ : ∃ k, fuel = k + 1 := ⟨fuel - 1, by omega⟩
    by_cases h10 : n < 10
    · refine ⟨[48 + n], by simp [formatBits, h10], ?_, by simp [digitsVal], ?_⟩
      · intro d hd
        simp at hd
        subst hd
        simp [isDigit]
        omega
      · by_cases h0 : n = 0
        · left; simp [h0]
        · right; exact ⟨48 + n, [], rfl, by omega, by omega⟩
    · obtain ⟨ds, hds, hall, hval, hshape⟩ :=
        ih (n / 10) (by omega) k ((48 + n % 10) :: acc) (by omega)
      refine ⟨ds ++ [48 + n % 10], ?_, ?_, ?_, ?_⟩
      · simp [formatBits, h10, hds]
      · intro d hd
        rcases List.mem_append.1 hd with hd | hd
        · exact hall d hd
        · simp at hd
          subst hd
          simp [isDigit]
          omega
      · rw [digitsVal_append, hval]
        omega
      · right
        rcases hshape with ⟨-, h0⟩ | ⟨d, ds1, rfl, hd1, hd2⟩
        · omega
        · exact ⟨d, ds1 ++ [48 + n % 10], by simp, hd1, hd2⟩

theorem isDigit_lt (d : Nat) (h : isDigit d = true) : 48 ≤ d ∧ d ≤ 57 := by
  simpa [isDigit] using h

theorem scanIntPart_digits (acc ds rest : List Nat) (k : Nat) (hk : k = 44 ∨ k = 125)
    (hall : ∀ d ∈ ds, isDigit d = true)
    (hshape : ds = [48] ∨ ∃ d ds1, ds = d :: ds1 ∧ 49 ≤ d ∧ d ≤ 57) :
    scanIntPart acc (ds ++ k :: rest) = some (acc ++ ds, k :: rest) := by
  have hkd : isDigit k = false := by rcases hk with rfl | rfl <;> decide
  have hk1 : k ≠ 46 ∧ k ≠ 101 ∧ k ≠ 69 := by rcases hk with rfl | rfl <;> decide
  rcases hshape with rfl | ⟨d, ds1, rfl, hd1, hd2⟩
  · simp [scanIntPart, scanFrac, scanExp, hk1]
  · have h := takeWhile_append_stop isDigit ds1 k rest (fun y hy => hall y (by simp [hy])) hkd
    have hd48 : d ≠ 48 := by omega
    simp [scanIntPart, hd48, hd1, hd2, h.1, h.2, scanFrac, scanExp, hk1]

theorem AppendInt_spec (i : Int) :
    ∃ ds, (∀ d ∈ ds, isDigit d = true) ∧ digitsVal ds = i.natAbs ∧
      (ds = [48] ∨ ∃ d ds1, ds = d :: ds1 ∧ 49 ≤ d ∧ d ≤ 57) ∧
      AppendInt i = if i < 0 then 45 :: ds else ds := by
  obtain ⟨ds, hds, hall, hval, hshape⟩ := formatBits_spec i.natAbs (i.natAbs + 1) [] (by omega)
  refine ⟨ds, hall, hval, ?_, ?_⟩
  · rcases hshape with ⟨h, -⟩ | h
    · exact Or.inl h
    · exact Or.inr h
  · simp only [List.append_nil] at hds
    unfold AppendInt
    simp only [hds]

theorem scanNumber_AppendInt (i : Int) (k : Nat) (hk : k = 44 ∨ k = 125) (rest : List Nat) :
    scanNumber (AppendInt i ++ k :: rest) = some (AppendInt i, k :: rest) := by
  obtain ⟨ds, hall, -, hshape, happ⟩ := AppendInt_spec i
  rw [happ]
  by_cases hneg : i < 0
  · simp only [hneg, if_true, List.cons_append, scanNumber]
    simpa using scanIntPart_digits [45] ds rest k hk hall hshape
  · simp only [hneg, if_false]
    have h := scanIntPart_digits [] ds rest k hk hall hshape
    have hne : ∃ d ds1, ds = d :: ds1 ∧ d ≠ 45 := by
      rcases hshape with rfl | ⟨d, ds1, rfl, hd1, hd2⟩
      · exact ⟨48, [], rfl, by decide⟩
      · exact ⟨d, ds1, rfl, by omega⟩
    obtain ⟨d, ds1, rfl, hd⟩ := hne
    simp only [List.cons_append, scanNumber, hd, if_false]
    simpa using h

theorem parseIntLit_AppendInt (i : Int) : parseIntLit (AppendInt i) = some i := by
  obtain ⟨ds, hall, hval, hshape, happ⟩ := AppendInt_spec i
  rw [happ]
  have hne : ds ≠ [] := by
    rcases hshape with rfl | ⟨d, ds1, rfl, -, -⟩ <;> simp
  have hall2 : ds.all isDigit = true := by
    simpa [List.all_eq_true] using hall
  by_cases hneg : i < 0
  · simp only [hneg, if_true, parseIntLit]
    simp [hne, hall2, hval]
    have : |i| = -i := abs_of_neg hneg
    omega
  · simp only [hneg, if_false]
    obtain ⟨d, ds1, rfl⟩ : ∃ d ds1, ds = d :: ds1 := by
      cases ds with
      | nil => exact absurd rfl hne
      | cons d ds1 => exact ⟨d, ds1, rfl⟩
    have hd := isDigit_lt d (hall d (by simp))
    have hd45 : d ≠ 45 := by omega
    simp only [parseIntLit, hd45, if_false, hall2, if_true, hval]
    congr 1
    omega

/-- The first byte of a number `AppendInt` writes is a minus sign or a digit. -/
theorem AppendInt_head (i : Int) :
    ∃ c cs, AppendInt i = c :: cs ∧ (c = 45 ∨ isDigit c = true) := by
  obtain ⟨ds, hall, -, hshape, happ⟩ := AppendInt_spec i
  rw [happ]
  by_cases hneg : i < 0
  · exact ⟨45, ds, by simp [hneg], Or.inl rfl⟩
  · rcases hshape with rfl | ⟨d, ds1, rfl, hd1, hd2⟩
    · exact ⟨48, [], by simp [hneg], Or.inr (by decide)⟩
    · exact ⟨d, ds1, by simp [hneg], Or.inr (hall d (by simp))⟩

theorem AppendInt_lt (i : Int) : ∀ b ∈ AppendInt i, b < 256 := by
  obtain ⟨ds, hall, -, -, happ⟩ := AppendInt_spec i
  rw [happ]
  intro b hb
  have hd : ∀ d ∈ ds, d < 256 := fun d hd => by
    have := isDigit_lt d (hall d hd)
    omega
  split at hb
  · rcases List.mem_cons.1 hb with rfl | hb
    · decide
    · exact hd b hb
  · exact hd b hb

/-! ## Objects: `Unmarshal` undoes `Marshal` -/

theorem skipSpace_cons (c : Nat) (rest : List Nat) (h : isSpace c = false) :
    skipSpace (c :: rest) = c :: rest := by
  simp [skipSpace, h]

theorem encodes_string (s : String) : Encodes (appendString s) (JValue.string s) := by
  intro fuel depth k rest hk
  have h := unquoteFrom_appendString s (k :: rest)
  constructor
  · simp only [appendString, List.cons_append, List.append_assoc, List.singleton_append]
    rw [parseValue]
    simp [h]
  · simp [appendString, skipSpace, isSpace]

theorem encodes_bool (b : Bool) : Encodes (appendBool b) (JValue.bool b) := by
  intro fuel depth k rest hk
  cases b
  · constructor
    · show parseValue (fuel + 1) depth (102 :: 97 :: 108 :: 115 :: 101 :: k :: rest) = _
      rw [parseValue]
      simp [isDigit]
    · simp [appendBool, skipSpace, isSpace]
  · constructor
    · show parseValue (fuel + 1) depth (116 :: 114 :: 117 :: 101 :: k :: rest) = _
      rw [parseValue]
      simp [isDigit]
    · simp [appendBool, skipSpace, isSpace]

theorem encodes_int (i : Int) : Encodes (AppendInt i) (JValue.number (AppendInt i)) := by
  intro fuel depth k rest hk
  obtain ⟨c, cs, hcs, hc⟩ := AppendInt_head i
  have hscan : scanNumber (AppendInt i ++ k :: rest) = some (AppendInt i, k :: rest) := by
    exact scanNumber_AppendInt i k hk rest
  have hc1 : c ≠ 123 ∧ c ≠ 91 ∧ c ≠ 34 ∧ isSpace c = false := by
    rcases hc with rfl | hc
    · decide
    · have := isDigit_lt c hc
      simp [isSpace]
      omega
  constructor
  · rw [hcs] at hscan ⊢
    simp only [List.cons_append] at hscan ⊢
    rw [parseValue]
    simp [hc1.1, hc1.2.1, hc1.2.2.1, hc, hscan]
  · rw [hcs]
    simp [skipSpace, hc1.2.2.2]

theorem marshalFields_cons_cons (kv kv2 : String × List Nat) (kvs : List (String × List Nat)) :
    marshalFields (kv :: kv2 :: kvs) =
      appendString kv.1 ++ 58 :: kv.2 ++ 44 :: marshalFields (kv2 :: kvs) := rfl

/-- The members of an object are read back one after the other. -/
theorem parseMembers_marshalFields (l : List (String × List Nat × JValue))
    (henc : ∀ x ∈ l, Encodes x.2.1 x.2.2) (hne : l ≠ []) :
    ∀ fuel depth rest, l.length < fuel →
      parseMembers fuel depth
          (marshalFields (l.map (fun x => (x.1, x.2.1))) ++ 125 :: rest) =
        some (l.map (fun x => (x.1, x.2.2)), rest) := by
  induction l with
  | nil => exact absurd rfl hne
  | cons x xs ih =>
    intro fuel depth rest hf
    obtain ⟨f, rfl⟩ : ∃ f, fuel = f + 2 := ⟨fuel - 2, by simp at hf; omega⟩
    obtain ⟨key, v, jv⟩ := x
    have hx : Encodes v jv := henc (key, v, jv) (by simp)
    cases xs with
    | nil =>
      have hv := hx f depth 125 rest (Or.inr rfl)
      have hu := unquoteFrom_appendString key (58 :: (v ++ 125 :: rest))
      simp only [List.map, marshalFields, appendString, List.cons_append, List.append_assoc,
        List.singleton_append]
      rw [parseMembers]
      simp [hu, skipSpace, isSpace, hv.1, hv.2]
    | cons y ys =>
      have hrec := ih (fun z hz => henc z (by simp [hz])) (by simp) (f + 1) depth rest
        (by simp at hf ⊢; omega)
      have hv := hx f depth 44
        (marshalFields ((y :: ys).map (fun x => (x.1, x.2.1))) ++ 125 :: rest) (Or.inl rfl)
      have hu := unquoteFrom_appendString key
        (58 :: (v ++ 44 :: (marshalFields ((y :: ys).map (fun x => (x.1, x.2.1))) ++ 125 :: rest)))
      have hsk : skipSpace (marshalFields ((y :: ys).map (fun x => (x.1, x.2.1))) ++ 125 :: rest) =
          marshalFields ((y :: ys).map (fun x => (x.1, x.2.1))) ++ 125 :: rest := by
        cases ys <;> simp [marshalFields, appendString, skipSpace, isSpace]
      simp only [List.map_cons] at hrec hv hu hsk ⊢
      rw [marshalFields_cons_cons]
      simp only [appendString, List.cons_append, List.append_assoc, List.singleton_append]
      rw [parseMembers]
      simp [hu, skipSpace, isSpace, hv.1, hv.2]
      rw [hsk, hrec]

theorem appendString_length (s : String) : 2 ≤ (appendString s).length := by
  simp [appendString]

theorem marshalFields_length (kvs : List (String × List Nat)) :
    3 * kvs.length ≤ (marshalFields kvs).length := by
  induction kvs with
  | nil => simp [marshalFields]
  | cons kv kvs ih =>
    have := appendString_length kv.1
    cases kvs with
    | nil => simp [marshalFields]; omega
    | cons kv2 kvs =>
      rw [marshalFields_cons_cons]
      simp only [List.length_append, List.length_cons] at ih ⊢
      omega

theorem parseJSON_Marshal (c : NetworkCookie) :
    parseJSON (Marshal c) =
      some (JValue.object ((cookieMembers c).map (fun x => (x.1, x.2.2)))) := by
  have hfields : cookieFields c = (cookieMembers c).map (fun x => (x.1, x.2.1)) := rfl
  have henc : ∀ x ∈ cookieMembers c, Encodes x.2.1 x.2.2 := by
    intro x hx
    simp only [cookieMembers, List.mem_cons, List.mem_singleton, List.not_mem_nil, or_false] at hx
    rcases hx with rfl | rfl | rfl | rfl | rfl | rfl | rfl
    · exact encodes_string _
    · exact encodes_string _
    · exact encodes_string _
    · exact encodes_string _
    · exact encodes_int _
    · exact encodes_bool _
    · exact encodes_bool _
  have hlen := marshalFields_length (cookieFields c)
  have hlen2 : (cookieFields c).length = 7 := rfl
  obtain ⟨f, hf⟩ : ∃ f, (Marshal c).length = f + 8 :=
    ⟨(Marshal c).length - 8, by simp [Marshal]; omega⟩
  have hm := parseMembers_marshalFields (cookieMembers c) henc (by simp [cookieMembers])
    (f + 8) 1 [] (by simp [cookieMembers])
  rw [← hfields] at hm
  have hhead : ∃ r, marshalFields (cookieFields c) ++ [125] = 34 :: r := by
    simp [cookieFields, marshalFields, appendString]
  obtain ⟨r, hr⟩ := hhead
  unfold parseJSON
  rw [hf]
  have hsk : skipSpace (Marshal c) = Marshal c := by simp [Marshal, skipSpace, isSpace]
  rw [hsk]
  unfold Marshal
  rw [hr] at hm ⊢
  rw [parseValue]
  simp [maxNestingDepth, skipSpace, isSpace, hm]

theorem findField_names :
    findField "name" = some Field.Name ∧ findField "value" = some Field.Value ∧
    findField "domain" = some Field.Domain ∧ findField "path" = some Field.Path ∧
    findField "expires" = some Field.Expires ∧ findField "httpOnly" = some Field.HTTPOnly ∧
    findField "secure" = some Field.Secure := by
  decide

/-- Deserialization undoes serialization: `Unmarshal` of what `Marshal` wrote is the cookie, with
no error. -/
theorem Unmarshal_Marshal (c : NetworkCookie) : Unmarshal (Marshal c) = (some c, false) := by
  obtain ⟨h1, h2, h3, h4, h5, h6, h7⟩ := findField_names
  unfold Unmarshal
  rw [parseJSON_Marshal]
  simp [cookieMembers, storeMembers, h1, h2, h3, h4, h5, h6, h7, storeField,
    parseIntLit_AppendInt, zeroCookie]

/-! ## The serialized cookie is a sequence of bytes -/

theorem hexDigit_lt (k : Nat) (h : k < 16) : hexDigit k < 256 := by
  unfold hexDigit
  split <;> omega

theorem appendChar_lt (c : Char) : ∀ b ∈ appendChar c, b < 256 := by
  have hv := char_valid c
  unfold appendChar utf8Encode
  generalize c.toNat = n at hv ⊢
  have h1 := hexDigit_lt (n / 16)
  have h2 := hexDigit_lt (n % 16) (by omega)
  intro b hb
  simp only [] at hb
  split_ifs at hb <;> simp at hb <;> omega

theorem appendChars_lt (cs : List Char) : ∀ b ∈ appendChars cs, b < 256 := by
  induction cs with
  | nil => simp [appendChars]
  | cons c cs ih =>
    intro b hb
    simp only [appendChars, List.mem_append] at hb
    rcases hb with hb | hb
    · exact appendChar_lt c b hb
    · exact ih b hb

theorem appendString_lt (s : String) : ∀ b ∈ appendString s, b < 256 := by
  intro b hb
  simp only [appendString, List.mem_cons, List.mem_append, List.mem_singleton,
    List.not_mem_nil, or_false] at hb
  rcases hb with rfl | hb | rfl
  · decide
  · exact appendChars_lt _ b hb
  · decide

theorem appendBool_lt (v : Bool) : ∀ b ∈ appendBool v, b < 256 := by
  cases v <;> decide

theorem marshalFields_lt (kvs : List (String × List Nat))
    (h : ∀ kv ∈ kvs, ∀ b ∈ kv.2, b < 256) : ∀ b ∈ marshalFields kvs, b < 256 := by
  induction kvs with
  | nil => simp [marshalFields]
  | cons kv kvs ih =>
    have hkv := h kv (by simp)
    have hk := appendString_lt kv.1
    have ih2 := ih (fun x hx => h x (by simp [hx]))
    intro b hb
    cases kvs with
    | nil =>
      simp only [marshalFields, List.mem_append, List.mem_cons] at hb
      rcases hb with hb | rfl | hb
      · exact hk b hb
      · decide
      · exact hkv b hb
    | cons kv2 kvs =>
      rw [marshalFields_cons_cons] at hb
      simp only [List.mem_append, List.mem_cons] at hb
      rcases hb with (hb | rfl | hb) | rfl | hb
      · exact hk b hb
      · decide
      · exact hkv b hb
      · decide
      · exact ih2 b hb

theorem Marshal_lt (c : NetworkCookie) : ∀ b ∈ Marshal c, b < 256 := by
  have hf : ∀ kv ∈ cookieFields c, ∀ b ∈ kv.2, b < 256 := by
    intro kv hkv
    simp only [cookieFields, List.mem_cons, List.mem_singleton, List.not_mem_nil, or_false] at hkv
    rcases hkv with rfl | rfl | rfl | rfl | rfl | rfl | rfl
    · exact appendString_lt _
    · exact appendString_lt _
    · exact appendString_lt _
    · exact appendString_lt _
    · exact AppendInt_lt _
    · exact appendBool_lt _
    · exact appendBool_lt _
  intro b hb
  simp only [Marshal, List.mem_cons, List.mem_append, List.mem_singleton, List.not_mem_nil,
    or_false] at hb
  rcases hb with rfl | hb | rfl
  · decide
  · exact marshalFields_lt _ hf b hb
  · decide

/-- The encoded file content decodes and deserializes to the cookie it was made from. -/
theorem decode_encode_cookie (c : NetworkCookie) :
    (Unmarshal (DecodeString (EncodeToString (Marshal c))).1).1 = some c := by
  rw [DecodeString_EncodeToString _ (Marshal_lt c), Unmarshal_Marshal]

/-! ## The cookie file -/

theorem writes_error (msg : String) : writes (error msg) = [] := rfl

theorem writes_append (a b : List Event) : writes (a ++ b) = writes a ++ writes b := by
  induction a with
  | nil => rfl
  | cons e a ih => cases e <;> simp [writes, ih]

theorem writes_homeDirOrWarn (os : OS) : writes (homeDirOrWarn os).2 = [] := by
  unfold homeDirOrWarn
  split <;> rfl

theorem saveLoop_none (os : OS) (path : String) (cookies : List NetworkCookie)
    (h : ∀ c ∈ cookies, c.Name ≠ "x-amz-sso_authn") : saveLoop os path cookies = ([], os) := by
  induction cookies with
  | nil => rfl
  | cons c cs ih =>
    have hc := h c (by simp)
    simp [saveLoop, hc, ih (fun x hx => h x (by simp [hx]))]

theorem saveLoop_some (os : OS) (path : String) (cookies : List NetworkCookie)
    (c : NetworkCookie) (h : cookies.find? (fun c => c.Name == "x-amz-sso_authn") = some c) :
    writes (saveLoop os path cookies).1 = [(path, EncodeToString (Marshal c))] ∧
    (saveLoop os path cookies).2 = (WriteFile os path (EncodeToString (Marshal c))).1 := by
  induction cookies with
  | nil => simp at h
  | cons x xs ih =>
    by_cases hx : x.Name = "x-amz-sso_authn"
    · simp [List.find?, hx] at h
      subst h
      simp only [saveLoop, hx, if_true]
      constructor
      · split <;> simp [writes, error]
      · trivial
    · have hx2 : (x.Name == "x-amz-sso_authn") = false := by simpa using hx
      simp only [List.find?, hx2] at h
      simp only [saveLoop, hx, if_false]
      exact ih h

theorem find_none_iff (cookies : List NetworkCookie) :
    cookies.find? (fun c => c.Name == "x-amz-sso_authn") = none ↔
      ∀ c ∈ cookies, c.Name ≠ "x-amz-sso_authn" := by
  simp [List.find?_eq_none]

/-- C7: `saveCookies` calls `os.WriteFile` if and only if a cookie of the list is named
`x-amz-sso_authn`.  Without such a cookie there is no write and the files are as they were; with
one there is exactly one write, to `<home>/.headless-sso`, of the encoding of the first such
cookie, and after a write that is not refused the file holds exactly that encoding, every other
file being as it was. -/
theorem saveCookies_selective (os : OS) (cookies : List NetworkCookie) :
    ((writes (saveCookies os (Except.ok cookies)).1).length = 1 ↔
      ∃ c ∈ cookies, c.Name = "x-amz-sso_authn") ∧
    ((∀ c ∈ cookies, c.Name ≠ "x-amz-sso_authn") →
      writes (saveCookies os (Except.ok cookies)).1 = [] ∧
      (saveCookies os (Except.ok cookies)).2.1 = os) ∧
    (∀ c, cookies.find? (fun c => c.Name == "x-amz-sso_authn") = some c →
      writes (saveCookies os (Except.ok cookies)).1 =
        [(cookiePath os, EncodeToString (Marshal c))] ∧
      (os.writable (cookiePath os) = true →
        (saveCookies os (Except.ok cookies)).2.1.files (cookiePath os) =
          some (EncodeToString (Marshal c)) ∧
        ∀ p, p ≠ cookiePath os → (saveCookies os (Except.ok cookies)).2.1.files p = os.files p)) := by
  have hnone : (∀ c ∈ cookies, c.Name ≠ "x-amz-sso_authn") →
      writes (saveCookies os (Except.ok cookies)).1 = [] ∧
      (saveCookies os (Except.ok cookies)).2.1 = os := by
    intro h
    simp [saveCookies, saveLoop_none os _ cookies h, writes_append, writes_homeDirOrWarn, writes]
  have hsome : ∀ c, cookies.find? (fun c => c.Name == "x-amz-sso_authn") = some c →
      writes (saveCookies os (Except.ok cookies)).1 =
        [(cookiePath os, EncodeToString (Marshal c))] ∧
      (os.writable (cookiePath os) = true →
        (saveCookies os (Except.ok cookies)).2.1.files (cookiePath os) =
          some (EncodeToString (Marshal c)) ∧
        ∀ p, p ≠ cookiePath os →
          (saveCookies os (Except.ok cookies)).2.1.files p = os.files p) := by
    intro c hc
    obtain ⟨h1, h2⟩ := saveLoop_some os (cookiePath os) cookies c hc
    constructor
    · simp only [saveCookies, writes_append, writes_homeDirOrWarn, List.nil_append]
      simpa [writes, cookiePath] using h1
    · intro hw
      have h3 : (saveCookies os (Except.ok cookies)).2.1 =
          (WriteFile os (cookiePath os) (EncodeToString (Marshal c))).1 := h2
      rw [h3]
      simp only [WriteFile, hw, if_true]
      exact ⟨by simp, fun p hp => by simp [hp]⟩
  refine ⟨?_, hnone, hsome⟩
  constructor
  · intro hlen
    by_contra hno
    have := (hnone (by
      intro c hc hname
      exact hno ⟨c, hc, hname⟩)).1
    rw [this] at hlen
    simp at hlen
  · rintro ⟨c, hc, hname⟩
    cases hf : cookies.find? (fun c => c.Name == "x-amz-sso_authn") with
    | none => exact absurd hname ((find_none_iff cookies).1 hf c hc)
    | some c2 => rw [(hsome c2 hf).1]; rfl

theorem saveCookies_selective_witness :
    writes (saveCookies (fileOS (some [1, 2, 3]))
        (Except.ok [otherCookie "foo", otherCookie "bar"])).1 = [] ∧
      (saveCookies (fileOS (some [1, 2, 3]))
        (Except.ok [otherCookie "foo", otherCookie "bar"])).2.1 = fileOS (some [1, 2, 3]) :=
  (saveCookies_selective (fileOS (some [1, 2, 3])) [otherCookie "foo", otherCookie "bar"]).2.1
    (by decide)

theorem homeDirOrWarn_WriteFile (os : OS) (path : String) (data : List Nat) :
    homeDirOrWarn (WriteFile os path data).1 = homeDirOrWarn os := by
  have h : (WriteFile os path data).1.userHomeDir = os.userHomeDir := by
    unfold WriteFile
    split <;> rfl
  unfold homeDirOrWarn
  rw [h]

/-- C2: after `saveCookies` has written the file for a list with a cookie named
`x-amz-sso_authn`, `loadCookies` reads back the first such cookie, equal in every field, and
sets it on the browser. -/
theorem saveCookies_loadCookies_roundtrip (os : OS) (cookies : List NetworkCookie)
    (c : NetworkCookie)
    (hfind : cookies.find? (fun c => c.Name == "x-amz-sso_authn") = some c)
    (hw : os.writable (cookiePath os) = true) (hr : os.readable (cookiePath os) = true) :
    loadedCookie (saveCookies os (Except.ok cookies)).2.1 = some c ∧
    ∀ setCookies, setCookies c = none →
      loadCookies (saveCookies os (Except.ok cookies)).2.1 setCookies =
        (Event.spinnerMessage "loading cookies" :: (homeDirOrWarn os).2 ++ [Event.setCookies c],
          Outcome.returns ()) := by
  obtain ⟨-, h2⟩ := saveLoop_some os (cookiePath os) cookies c hfind
  have h3 : (saveCookies os (Except.ok cookies)).2.1 =
      (WriteFile os (cookiePath os) (EncodeToString (Marshal c))).1 := h2
  have hhome := homeDirOrWarn_WriteFile os (cookiePath os) (EncodeToString (Marshal c))
  have hload : loadedCookie (WriteFile os (cookiePath os) (EncodeToString (Marshal c))).1 =
      some c := by
    unfold loadedCookie
    simp only [hhome]
    have hread : ReadFile (WriteFile os (cookiePath os) (EncodeToString (Marshal c))).1
        ((homeDirOrWarn os).1 ++ "/.headless-sso") = some (EncodeToString (Marshal c)) := by
      have hw2 : os.writable ((homeDirOrWarn os).1 ++ "/.headless-sso") = true := hw
      have hr2 : os.readable ((homeDirOrWarn os).1 ++ "/.headless-sso") = true := hr
      simp [ReadFile, WriteFile, cookiePath, hw2, hr2]
    rw [hread]
    exact decode_encode_cookie c
  rw [h3]
  refine ⟨hload, fun sc hsc => ?_⟩
  simp [loadCookies, hload, hsc, hhome]

theorem saveCookies_loadCookies_roundtrip_witness :
    loadedCookie (saveCookies (fileOS none)
        (Except.ok [otherCookie "foo", tokCookie, otherCookie "bar"])).2.1 = some tokCookie ∧
    ∀ setCookies, setCookies tokCookie = none →
      loadCookies (saveCookies (fileOS none)
          (Except.ok [otherCookie "foo", tokCookie, otherCookie "bar"])).2.1 setCookies =
        (Event.spinnerMessage "loading cookies" :: (homeDirOrWarn (fileOS none)).2 ++
          [Event.setCookies tokCookie], Outcome.returns ()) :=
  saveCookies_loadCookies_roundtrip (fileOS none)
    [otherCookie "foo", tokCookie, otherCookie "bar"] tokCookie (by decide) rfl rfl

/-- The file holds `W10=`, the base64 text of the JSON array `[]`. -/
theorem loadedCookie_array : loadedCookie (fileOS (some [87, 49, 48, 61])) = some zeroCookie := by
  decide

set_option maxRecDepth 100000 in
/-- The file holds the encoding of a cookie followed by the character `!`. -/
theorem loadedCookie_trailing_garbage :
    (DecodeString (EncodeToString (Marshal tokCookie) ++ [33])).2 = true ∧
    loadedCookie (fileOS (some (EncodeToString (Marshal tokCookie) ++ [33]))) = some tokCookie := by
  decide

/-- C8, as stated, fails on both of its examples: for valid base64 followed by an invalid
character the bytes decoded before the error are deserialized, and the cookie is loaded and set
on the browser; for the well-formed JSON of an array the deserialization reports an error and
all the same leaves a record, with every field zero, that is set on the browser. -/
theorem loadCookies_sets_cookie_from_bad_content :
    ((DecodeString (EncodeToString (Marshal tokCookie) ++ [33])).2 = true ∧
      loadCookies (fileOS (some (EncodeToString (Marshal tokCookie) ++ [33]))) (fun _ => none) =
        ([Event.spinnerMessage "loading cookies", Event.setCookies tokCookie],
          Outcome.returns ())) ∧
    ((DecodeString [87, 49, 48, 61]) = ([91, 93], false) ∧ (Unmarshal [91, 93]).2 = true ∧
      loadCookies (fileOS (some [87, 49, 48, 61])) (fun _ => none) =
        ([Event.spinnerMessage "loading cookies", Event.setCookies zeroCookie],
          Outcome.returns ())) := by
  refine ⟨⟨loadedCookie_trailing_garbage.1, ?_⟩, by decide, by decide, ?_⟩
  · simp only [loadCookies, loadedCookie_trailing_garbage.2]
    rfl
  · simp only [loadCookies, loadedCookie_array]
    rfl

theorem parseJSON_nil : parseJSON [] = none := rfl

/-- C8, amended: `loadCookies` yields no cookie, sets none on the browser and raises no failure
when the file is absent or unreadable, and when the bytes the base64 decoding delivers (those
decoded before its first error, if there is one) are not a well-formed JSON text or are the JSON
`null`. -/
theorem loadCookies_no_cookie (os : OS) (setCookies : NetworkCookie → Option String)
    (h : ReadFile os (cookiePath os) = none ∨
      ∃ data, ReadFile os (cookiePath os) = some data ∧
        (parseJSON (DecodeString data).1 = none ∨
         parseJSON (DecodeString data).1 = some JValue.null)) :
    loadedCookie os = none ∧
    loadCookies os setCookies =
      (Event.spinnerMessage "loading cookies" :: (homeDirOrWarn os).2, Outcome.returns ()) := by
  have hl : loadedCookie os = none := by
    unfold loadedCookie
    unfold cookiePath at h
    rcases h with h | ⟨data, h, hp | hp⟩
    · simp only [h, Option.getD]
      have : DecodeString [] = ([], false) := rfl
      simp [this, Unmarshal, parseJSON_nil]
    · simp [h, Unmarshal, hp]
    · simp [h, Unmarshal, hp]
  exact ⟨hl, by simp [loadCookies, hl]⟩

theorem loadCookies_no_cookie_witness :
    (loadedCookie (fileOS none) = none ∧
      loadCookies (fileOS none) (fun _ => none) =
        (Event.spinnerMessage "loading cookies" :: (homeDirOrWarn (fileOS none)).2,
          Outcome.returns ())) ∧
    (loadedCookie (fileOS (some [33, 33, 33])) = none ∧
      loadCookies (fileOS (some [33, 33, 33])) (fun _ => none) =
        (Event.spinnerMessage "loading cookies" ::
          (homeDirOrWarn (fileOS (some [33, 33, 33]))).2, Outcome.returns ())) :=
  ⟨loadCookies_no_cookie (fileOS none) _ (Or.inl rfl),
   loadCookies_no_cookie (fileOS (some [33, 33, 33])) _
     (Or.inr ⟨[33, 33, 33], rfl, Or.inl rfl⟩)⟩

/-! ## The fuel of the readers is enough -/

theorem skipSpace_length (s : List Nat) : (skipSpace s).length ≤ s.length := by
  induction s with
  | nil => simp [skipSpace]
  | cons c cs ih =>
    simp only [skipSpace]
    split
    · simp only [List.length_cons]; omega
    · simp

theorem unicodeStep_length (s : List Nat) :
    (∀ c rest, unicodeStep s = UnquoteStep.emit c rest → rest.length ≤ s.length) ∧
    (∀ rest, unicodeStep s ≠ UnquoteStep.close rest) := by
  unfold unicodeStep
  constructor
  · intro c rest h
    split at h
    · rename_i h1 h2 h3 h4 rest2
      split at h
      · simp at h
      · split at h
        · split at h
          · simp at h
            obtain ⟨-, rfl⟩ := h
            simp only [List.length_drop, List.length_cons]
            omega
          · simp at h
            obtain ⟨-, rfl⟩ := h
            simp only [List.length_cons]
            omega
        · simp at h
          obtain ⟨-, rfl⟩ := h
          simp only [List.length_cons]
          omega
    · simp at h
  · intro rest h
    split at h
    · split at h
      · simp at h
      · split at h
        · split at h <;> simp at h
        · simp at h
    · simp at h

theorem escapeStep_length (s : List Nat) :
    (∀ c rest, escapeStep s = UnquoteStep.emit c rest → rest.length ≤ s.length) ∧
    (∀ rest, escapeStep s ≠ UnquoteStep.close rest) := by
  unfold escapeStep
  constructor
  · intro c rest h
    split at h
    · simp at h
    · rename_i e rest1
      split at h
      · have := (unicodeStep_length rest1).1 c rest h
        simp only [List.length_cons]
        omega
      · split at h
        · simp at h
          obtain ⟨-, rfl⟩ := h
          simp
        · simp at h
  · intro rest h
    split at h
    · simp at h
    · rename_i e rest1
      split at h
      · exact (unicodeStep_length rest1).2 rest h
      · split at h <;> simp at h

theorem unquoteStep_length (s : List Nat) :
    (∀ c rest, unquoteStep s = UnquoteStep.emit c rest → rest.length < s.length) ∧
    (∀ rest, unquoteStep s = UnquoteStep.close rest → rest.length < s.length) := by
  unfold unquoteStep
  constructor
  · intro c rest h
    split at h
    · simp at h
    · rename_i b rest0
      split at h
      · simp at h
      · split at h
        · have := (escapeStep_length rest0).1 c rest h
          simp only [List.length_cons]
          omega
        · split at h
          · simp at h
          · split at h
            · simp at h
              obtain ⟨-, rfl⟩ := h
              simp
            · simp at h
              obtain ⟨-, rfl⟩ := h
              simp only [List.length_drop, List.length_cons]
              omega
  · intro rest h
    split at h
    · simp at h
    · rename_i b rest0
      split at h
      · simp at h
        subst h
        simp
      · split at h
        · exact absurd h ((escapeStep_length rest0).2 rest)
        · split at h
          · simp at h
          · split at h <;> simp at h

theorem unquoteLoop_length :
    ∀ fuel s cs rest, unquoteLoop fuel s = some (cs, rest) → rest.length < s.length := by
  intro fuel
  induction fuel with
  | zero => intro s cs rest h; simp [unquoteLoop] at h
  | succ f ih =>
    intro s cs rest h
    have hs := unquoteStep_length s
    unfold unquoteLoop at h
    split at h
    · rename_i r hr
      simp at h
      obtain ⟨-, rfl⟩ := h
      exact hs.2 _ hr
    · simp at h
    · rename_i c r hr
      have h1 := hs.1 c r hr
      cases hl : unquoteLoop f r with
      | none => simp [hl, consChar] at h
      | some x =>
        obtain ⟨cs2, rest2⟩ := x
        simp [hl, consChar] at h
        obtain ⟨-, rfl⟩ := h
        have := ih r cs2 rest2 hl
        omega

/-- More fuel than the input has bytes does not change what `unquoteLoop` reads. -/
theorem unquoteLoop_fuel :
    ∀ n fuel s, s.length ≤ n → n ≤ fuel → unquoteLoop fuel s = unquoteLoop n s := by
  intro n
  induction n with
  | zero =>
    intro fuel s hs _
    have : s = [] := List.length_eq_zero.1 (by omega)
    subst this
    cases fuel <;> simp [unquoteLoop, unquoteStep]
  | succ n ih =>
    intro fuel s hs hf
    obtain ⟨f, rfl⟩ : ∃ f, fuel = f + 1 := ⟨fuel - 1, by omega⟩
    have hst := unquoteStep_length s
    unfold unquoteLoop
    split
    · rfl
    · rfl
    · rename_i c r hr
      have := hst.1 c r hr
      rw [ih f r (by omega) (by omega)]

theorem unquoteFrom_length (s : List Nat) (cs : List Char) (rest : List Nat)
    (h : unquoteFrom s = some (cs, rest)) : rest.length < s.length :=
  unquoteLoop_length _ s cs rest h

theorem dropWhile_length (p : Nat → Bool) (s : List Nat) : (s.dropWhile p).length ≤ s.length := by
  induction s with
  | nil => simp
  | cons c cs ih =>
    simp only [List.dropWhile]
    split
    · simp only [List.length_cons]; omega
    · simp

theorem expSign_length (r : List Nat) : (expSign r).2.length ≤ r.length := by
  unfold expSign
  split
  · simp
  · split <;> simp

theorem scanExp_length (acc s lit rest : List Nat) (h : scanExp acc s = some (lit, rest)) :
    rest.length ≤ s.length := by
  unfold scanExp at h
  split at h
  · simp at h
    obtain ⟨-, rfl⟩ := h
    simp
  · rename_i e r
    have h1 := expSign_length r
    have h2 := dropWhile_length isDigit (expSign r).2
    split at h
    · split at h
      · simp at h
      · simp only [Option.some.injEq, Prod.mk.injEq] at h
        obtain ⟨-, rfl⟩ := h
        simp only [List.length_cons]
        omega
    · simp only [Option.some.injEq, Prod.mk.injEq] at h
      obtain ⟨-, rfl⟩ := h
      simp

theorem scanFrac_length (acc s lit rest : List Nat) (h : scanFrac acc s = some (lit, rest)) :
    rest.length ≤ s.length := by
  unfold scanFrac at h
  split at h
  · simp at h
    obtain ⟨-, rfl⟩ := h
    simp
  · rename_i p r
    split at h
    · split at h
      · simp at h
      · have := scanExp_length _ _ _ _ h
        have := dropWhile_length isDigit r
        simp only [List.length_cons]
        omega
    · exact scanExp_length _ _ _ _ h

theorem scanIntPart_length (acc s lit rest : List Nat)
    (h : scanIntPart acc s = some (lit, rest)) : rest.length < s.length := by
  unfold scanIntPart at h
  split at h
  · simp at h
  · rename_i d r
    split at h
    · have := scanFrac_length _ _ _ _ h
      simp only [List.length_cons]
      omega
    · split at h
      · have := scanFrac_length _ _ _ _ h
        have := dropWhile_length isDigit r
        simp only [List.length_cons]
        omega
      · simp at h

theorem scanNumber_length (s lit rest : List Nat) (h : scanNumber s = some (lit, rest)) :
    rest.length < s.length := by
  unfold scanNumber at h
  split at h
  · simp at h
  · rename_i c r
    split at h
    · have := scanIntPart_length _ _ _ _ h
      simp only [List.length_cons]
      omega
    · exact scanIntPart_length _ _ _ _ h

theorem valueAdequate_zero : ValueAdequate 0 := by
  intro d s v rest h
  simp [parseValue] at h

theorem elementsAdequate_zero : ElementsAdequate 0 := by
  intro d s vs rest h
  simp [parseElements] at h

theorem membersAdequate_zero : MembersAdequate 0 := by
  intro d s ms rest h
  simp [parseMembers] at h

theorem elementsAdequate_succ (f : Nat) (hv : ValueAdequate f) (he : ElementsAdequate f) :
    ElementsAdequate (f + 1) := by
  intro d s vs rest h
  rw [parseElements] at h
  cases hpv : parseValue f d s with
  | none => simp [hpv] at h
  | some x =>
    obtain ⟨v, r0⟩ := x
    obtain ⟨hlen0, hfuel0⟩ := hv d s v r0 hpv
    have hsk := skipSpace_length r0
    simp only [hpv] at h
    cases hk : skipSpace r0 with
    | nil => simp [hk] at h
    | cons k r1 =>
      simp only [hk] at h
      rw [hk] at hsk
      simp only [List.length_cons] at hsk
      by_cases h93 : k = 93
      · simp [h93] at h
        obtain ⟨rfl, rfl⟩ := h
        refine ⟨by omega, fun g hg => ?_⟩
        obtain ⟨g1, rfl⟩ : ∃ g1, g = g1 + 1 := ⟨g - 1, by omega⟩
        rw [parseElements]
        simp [hfuel0 g1 (by omega), hk, h93]
      · by_cases h44 : k = 44
        · simp only [h93, h44, if_false, if_true] at h
          cases hpe : parseElements f d (skipSpace r1) with
          | none => simp [hpe] at h
          | some y =>
            obtain ⟨vs2, r2⟩ := y
            simp [hpe] at h
            obtain ⟨rfl, rfl⟩ := h
            obtain ⟨hlen1, hfuel1⟩ := he d (skipSpace r1) vs2 r2 hpe
            have hsk1 := skipSpace_length r1
            refine ⟨by omega, fun g hg => ?_⟩
            obtain ⟨g1, rfl⟩ : ∃ g1, g = g1 + 1 := ⟨g - 1, by omega⟩
            rw [parseElements]
            simp [hfuel0 g1 (by omega), hk, h44, hfuel1 g1 (by omega)]
        · simp [h93, h44] at h

theorem membersAdequate_succ (f : Nat) (hv : ValueAdequate f) (hm : MembersAdequate f) :
    MembersAdequate (f + 1) := by
  intro d s ms rest h
  rcases s with _ | ⟨q, s0⟩
  · simp [parseMembers] at h
  rw [parseMembers] at h
  by_cases hq : q = 34
  · simp only [hq, if_true] at h
    cases hu : unquoteFrom s0 with
    | none => simp [hu] at h
    | some x =>
      obtain ⟨key, r0⟩ := x
      have hlu := unquoteFrom_length s0 key r0 hu
      simp only [hu] at h
      have hsk0 := skipSpace_length r0
      cases hk0 : skipSpace r0 with
      | nil => simp [hk0] at h
      | cons colon r1 =>
        simp only [hk0] at h
        rw [hk0] at hsk0
        simp only [List.length_cons] at hsk0
        by_cases hc : colon = 58
        · simp only [hc, if_true] at h
          have hsk1 := skipSpace_length r1
          cases hpv : parseValue f d (skipSpace r1) with
          | none => simp [hpv] at h
          | some y =>
            obtain ⟨v, r2⟩ := y
            obtain ⟨hlen2, hfuel2⟩ := hv d (skipSpace r1) v r2 hpv
            simp only [hpv] at h
            have hsk2 := skipSpace_length r2
            cases hk2 : skipSpace r2 with
            | nil => simp [hk2] at h
            | cons k r3 =>
              simp only [hk2] at h
              rw [hk2] at hsk2
              simp only [List.length_cons] at hsk2
              by_cases h125 : k = 125
              · simp [h125] at h
                obtain ⟨rfl, rfl⟩ := h
                refine ⟨by simp only [List.length_cons]; omega, fun g hg => ?_⟩
                simp only [List.length_cons] at hg
                obtain ⟨g1, rfl⟩ : ∃ g1, g = g1 + 1 := ⟨g - 1, by omega⟩
                rw [parseMembers]
                simp [hq, hu, hk0, hc, hfuel2 g1 (by omega), hk2, h125]
              · by_cases h44 : k = 44
                · simp only [h125, h44, if_false, if_true] at h
                  have hsk3 := skipSpace_length r3
                  cases hpm : parseMembers f d (skipSpace r3) with
                  | none => simp [hpm] at h
                  | some z =>
                    obtain ⟨ms2, r4⟩ := z
                    simp [hpm] at h
                    obtain ⟨rfl, rfl⟩ := h
                    obtain ⟨hlen4, hfuel4⟩ := hm d (skipSpace r3) ms2 r4 hpm
                    refine ⟨by simp only [List.length_cons]; omega, fun g hg => ?_⟩
                    simp only [List.length_cons] at hg
                    obtain ⟨g1, rfl⟩ : ∃ g1, g = g1 + 1 := ⟨g - 1, by omega⟩
                    rw [parseMembers]
                    simp [hq, hu, hk0, hc, hfuel2 g1 (by omega), hk2, h44,
                      hfuel4 g1 (by omega)]
                · simp [h125, h44] at h
        · simp [hc] at h
  · simp [hq] at h

theorem valueAdequate_succ (f : Nat) (he : ElementsAdequate f) (hm : MembersAdequate f) :
    ValueAdequate (f + 1) := by
  intro d s v rest h
  rcases s with _ | ⟨c, s0⟩
  · simp [parseValue] at h
  rw [parseValue] at h
  have hsk0 := skipSpace_length s0
  by_cases h123 : c = 123
  · simp only [h123, if_true] at h
    by_cases hd : maxNestingDepth ≤ d
    · simp [hd] at h
    · simp only [hd, if_false] at h
      cases hk : skipSpace s0 with
      | nil => simp [hk] at h
      | cons k r1 =>
        simp only [hk] at h
        rw [hk] at hsk0
        simp only [List.length_cons] at hsk0
        by_cases h125 : k = 125
        · simp [h125] at h
          obtain ⟨rfl, rfl⟩ := h
          refine ⟨by simp only [List.length_cons]; omega, fun g hg => ?_⟩
          simp only [List.length_cons] at hg
          obtain ⟨g1, rfl⟩ : ∃ g1, g = g1 + 1 := ⟨g - 1, by omega⟩
          rw [parseValue]
          simp [h123, hd, hk, h125]
        · simp only [h125, if_false] at h
          cases hpm : parseMembers f (d + 1) (k :: r1) with
          | none => simp [hpm] at h
          | some x =>
            obtain ⟨ms, r2⟩ := x
            simp [hpm] at h
            obtain ⟨rfl, rfl⟩ := h
            obtain ⟨hlen, hfuel⟩ := hm (d + 1) (k :: r1) ms r2 hpm
            simp only [List.length_cons] at hlen hfuel
            refine ⟨by simp only [List.length_cons]; omega, fun g hg => ?_⟩
            simp only [List.length_cons] at hg
            obtain ⟨g1, rfl⟩ : ∃ g1, g = g1 + 1 := ⟨g - 1, by omega⟩
            rw [parseValue]
            simp [h123, hd, hk, h125, hfuel g1 (by omega)]
  · simp only [h123, if_false] at h
    by_cases h91 : c = 91
    · simp only [h91, if_true] at h
      by_cases hd : maxNestingDepth ≤ d
      · simp [hd] at h
      · simp only [hd, if_false] at h
        cases hk : skipSpace s0 with
        | nil => simp [hk] at h
        | cons k r1 =>
          simp only [hk] at h
          rw [hk] at hsk0
          simp only [List.length_cons] at hsk0
          by_cases h93 : k = 93
          · simp [h93] at h
            obtain ⟨rfl, rfl⟩ := h
            refine ⟨by simp only [List.length_cons]; omega, fun g hg => ?_⟩
            simp only [List.length_cons] at hg
            obtain ⟨g1, rfl⟩ : ∃ g1, g = g1 + 1 := ⟨g - 1, by omega⟩
            rw [parseValue]
            simp [h91, hd, hk, h93]
          · simp only [h93, if_false] at h
            cases hpe : parseElements f (d + 1) (k :: r1) with
            | none => simp [hpe] at h
            | some x =>
              obtain ⟨vs, r2⟩ := x
              simp [hpe] at h
              obtain ⟨rfl, rfl⟩ := h
              obtain ⟨hlen, hfuel⟩ := he (d + 1) (k :: r1) vs r2 hpe
              simp only [List.length_cons] at hlen hfuel
              refine ⟨by simp only [List.length_cons]; omega, fun g hg => ?_⟩
              simp only [List.length_cons] at hg
              obtain ⟨g1, rfl⟩ : ∃ g1, g = g1 + 1 := ⟨g - 1, by omega⟩
              rw [parseValue]
              simp [h91, hd, hk, h93, hfuel g1 (by omega)]
    · simp only [h91, if_false] at h
      have hgen : rest.length < (c :: s0).length ∧
          parseValue 1 d (c :: s0) = some (v, rest) := by
        rw [parseValue]
        simp only [h123, h91, if_false]
        by_cases h34 : c = 34
        · simp only [h34, if_true] at h ⊢
          cases hu : unquoteFrom s0 with
          | none => simp [hu] at h
          | some x =>
            obtain ⟨cs, r1⟩ := x
            have := unquoteFrom_length s0 cs r1 hu
            simp [hu] at h ⊢
            obtain ⟨rfl, rfl⟩ := h
            exact ⟨by omega, rfl, rfl⟩
        · simp only [h34, if_false] at h ⊢
          by_cases hnum : c = 45 ∨ isDigit c = true
          · simp only [hnum, if_true] at h ⊢
            cases hn : scanNumber (c :: s0) with
            | none => simp [hn] at h
            | some x =>
              obtain ⟨lit, r1⟩ := x
              have := scanNumber_length _ lit r1 hn
              simp [hn] at h ⊢
              obtain ⟨rfl, rfl⟩ := h
              exact ⟨this, rfl, rfl⟩
          · simp only [hnum, if_false] at h ⊢
            refine ⟨?_, h⟩
            split at h
            · rename_i r1 heq
              simp at heq h
              obtain ⟨-, rfl⟩ := heq
              obtain ⟨-, rfl⟩ := h
              simp only [List.length_cons]; omega
            · rename_i r1 heq
              simp at heq h
              obtain ⟨-, rfl⟩ := heq
              obtain ⟨-, rfl⟩ := h
              simp only [List.length_cons]; omega
            · rename_i r1 heq
              simp at heq h
              obtain ⟨-, rfl⟩ := heq
              obtain ⟨-, rfl⟩ := h
              simp only [List.length_cons]; omega
            · simp at h
      refine ⟨hgen.1, fun g hg => ?_⟩
      have hl := hgen.1
      obtain ⟨g1, rfl⟩ : ∃ g1, g = g1 + 1 := ⟨g - 1, by omega⟩
      have h2 := hgen.2
      rw [parseValue] at h2 ⊢
      simp only [h123, h91, if_false] at h2 ⊢
      exact h2

/-- The three readers agree for every fuel that is at least the number of bytes read. -/
theorem parse_adequate (f : Nat) : ValueAdequate f ∧ ElementsAdequate f ∧ MembersAdequate f := by
  induction f with
  | zero => exact ⟨valueAdequate_zero, elementsAdequate_zero, membersAdequate_zero⟩
  | succ f ih =>
    exact ⟨valueAdequate_succ f ih.2.1 ih.2.2, elementsAdequate_succ f ih.1 ih.2.1,
      membersAdequate_succ f ih.1 ih.2.2⟩

/-- The fuel of `parseJSON` is enough: a text that reads as one JSON value with some fuel is read
as that value by `parseJSON`. -/
theorem parseJSON_complete (data : List Nat) (fuel : Nat) (v : JValue) (rest : List Nat)
    (h : parseValue fuel 0 (skipSpace data) = some (v, rest)) (hrest : skipSpace rest = []) :
    parseJSON data = some v := by
  obtain ⟨hlen, hfuel⟩ := (parse_adequate fuel).1 0 (skipSpace data) v rest h
  have hsk := skipSpace_length data
  unfold parseJSON
  rw [hfuel (data.length + 1) (by omega)]
  simp [hrest]

/-! ## The login -/

theorem allowLoop_never_allowed (w : World) (h : ∀ k, w.hasAllow k = false) :
    ∀ fuel k, allowLoop w fuel k true = none := by
  intro fuel
  induction fuel with
  | zero => intro k; rfl
  | succ n ih => intro k; simp [allowLoop, h k, ih (k + 1)]

theorem awaitApproval_never_allowed (w : World) (h : ∀ k, w.hasAllow k = false) (fuel : Nat) :
    awaitApproval w fuel = none := by
  simp [awaitApproval, allowLoop_never_allowed w h]

theorem poll_not_mem_getCredentials (os : OS) :
    Event.hasR "span" "Allow access" ∉ (getCredentials os).1 := by
  unfold getCredentials getCredentialsFromNetrc
  repeat' split
  all_goals simp [panic]

theorem poll_not_mem_loadCookies (os : OS) (sc : NetworkCookie → Option String) :
    Event.hasR "span" "Allow access" ∉ (loadCookies os sc).1 := by
  unfold loadCookies homeDirOrWarn
  repeat' split
  all_goals simp [error]

theorem poll_not_mem_signIn (w : World) (u p : String) :
    Event.hasR "span" "Allow access" ∉ (signIn w u p).1 := by
  unfold signIn
  split <;> simp

theorem poll_not_mem_tryBody (w : World) (url u p : String) (h : ∀ k, w.hasAllow k = false)
    (fuel : Nat) (tt : List Event) (os : OS) (e : Option RodError)
    (hrun : tryBody w url u p fuel = some (tt, os, e)) :
    Event.hasR "span" "Allow access" ∉ tt := by
  have hs := poll_not_mem_signIn w u p
  unfold tryBody at hrun
  simp only [awaitApproval_never_allowed w h] at hrun
  repeat' split at hrun
  all_goals simp at hrun
  all_goals
    obtain ⟨rfl, -, -⟩ := hrun
    simp_all

/-- C4: no deadline bounds the approval polling.  When the page never shows "Allow access", the
polling is still running after any number of polls, whatever the fuel; a run of `ssoLogin` that
has ended, ended before the first poll, and so no run comes from the polling to the timeout
outcome. -/
theorem ssoLogin_polling_unbounded (w : World) (url : String) (h : ∀ k, w.hasAllow k = false) :
    (∀ fuel k, allowLoop w fuel k true = none) ∧
    ∀ fuel t os out, ssoLogin w url fuel = some (t, os, out) →
      Event.hasR "span" "Allow access" ∉ t := by
  refine ⟨allowLoop_never_allowed w h, ?_⟩
  intro fuel t os out hrun
  have hc := poll_not_mem_getCredentials w.os
  have hl := poll_not_mem_loadCookies w.os w.setCookies
  have ht := fun u p => poll_not_mem_tryBody w url u p h
  unfold ssoLogin at hrun
  generalize getCredentials w.os = gc at hrun hc
  generalize loadCookies w.os w.setCookies = lc at hrun hl
  obtain ⟨t0, o0⟩ := gc
  obtain ⟨tl, ol⟩ := lc
  simp only at hc hl
  repeat' split at hrun
  all_goals simp at hrun
  all_goals
    obtain ⟨rfl, -, -⟩ := hrun
    simp_all [panic]
  all_goals exact ht _ _ _ _ _ _ (by assumption)

theorem ssoLogin_polling_unbounded_witness :
    (∀ k, stuckWorld.hasAllow k = false) ∧
    (∀ fuel k, allowLoop stuckWorld fuel k true = none) ∧
    ∀ fuel t os out, ssoLogin stuckWorld "https://sso.example/device?user_code=WXYZ-ABCD" fuel =
        some (t, os, out) → Event.hasR "span" "Allow access" ∉ t :=
  ⟨fun _ => rfl, ssoLogin_polling_unbounded stuckWorld _ (fun _ => rfl)⟩

theorem getCredentials_netrcOnlyOS :
    getCredentials netrcOnlyOS =
      ([Event.spinnerMessage "fetching credentials from /home/u/.netrc"],
        Outcome.returns ("bob", "pw123")) := by
  decide

theorem loadCookies_netrcOnlyOS (sc : NetworkCookie → Option String) :
    loadCookies netrcOnlyOS sc = ([Event.spinnerMessage "loading cookies"], Outcome.returns ()) := by
  have h : loadedCookie netrcOnlyOS = none := by decide
  simp only [loadCookies, h]
  rfl

/-- The run of `stuckWorld` reaches the approval polling and is still polling after any number of
steps. -/
theorem ssoLogin_stuckWorld_polls_forever (fuel : Nat) :
    ssoLogin stuckWorld "https://sso.example/device?user_code=WXYZ-ABCD" fuel = none := by
  have ha := awaitApproval_never_allowed stuckWorld (fun _ => rfl) fuel
  have hos : stuckWorld.os = netrcOnlyOS := rfl
  have ht : tryBody stuckWorld "https://sso.example/device?user_code=WXYZ-ABCD" "bob" "pw123" fuel
      = none := by
    simp only [tryBody, ha]
    rfl
  simp only [ssoLogin, hos, getCredentials_netrcOnlyOS, loadCookies_netrcOnlyOS, ht]
  rfl

theorem allowLoop_events (w : World) :
    ∀ fuel k b t e, allowLoop w fuel k b = some (t, e) →
      Event.browserClose ∉ t ∧ Event.getCookies ∉ t ∧
      (b = true → e = none → Event.click "span" "Allow access" ∈ t) := by
  intro fuel
  induction fuel with
  | zero => intro k b t e h; simp [allowLoop] at h
  | succ n ih =>
    intro k b t e h
    unfold allowLoop at h
    split at h
    · split at h
      · split at h
        · simp at h
          obtain ⟨rfl, rfl⟩ := h
          simp
        · split at h
          · simp at h
          · rename_i r hr
            simp at h
            obtain ⟨rfl, rfl⟩ := h
            obtain ⟨t', e'⟩ := r
            have := ih _ _ _ _ hr
            simp_all
      · split at h
        · simp at h
        · rename_i r hr
          simp at h
          obtain ⟨rfl, rfl⟩ := h
          obtain ⟨t', e'⟩ := r
          have := ih _ _ _ _ hr
          simp_all
    · simp at h
      obtain ⟨rfl, rfl⟩ := h
      simp_all

theorem close_getCookies_not_mem_getCredentials (os : OS) :
    Event.browserClose ∉ (getCredentials os).1 ∧ Event.getCookies ∉ (getCredentials os).1 := by
  unfold getCredentials getCredentialsFromNetrc
  repeat' split
  all_goals simp [panic]

theorem close_getCookies_not_mem_loadCookies (os : OS) (sc : NetworkCookie → Option String) :
    Event.browserClose ∉ (loadCookies os sc).1 ∧ Event.getCookies ∉ (loadCookies os sc).1 := by
  unfold loadCookies homeDirOrWarn
  repeat' split
  all_goals simp [error]

theorem close_getCookies_not_mem_signIn (w : World) (u p : String) :
    Event.browserClose ∉ (signIn w u p).1 ∧ Event.getCookies ∉ (signIn w u p).1 := by
  unfold signIn
  split <;> simp

theorem getCookies_mem_saveCookies (os : OS) (cs : Except RodError (List NetworkCookie)) :
    Event.getCookies ∈ (saveCookies os cs).1 := by
  unfold saveCookies
  split <;> simp

theorem verify_events (w : World) :
    (w.hasApproved = false →
      Event.browserClose ∉ (verify w).1 ∧ Event.getCookies ∉ (verify w).1) ∧
    (w.hasApproved = true → Event.getCookies ∈ (verify w).1) := by
  have h2 := getCookies_mem_saveCookies w.os w.getCookies
  constructor
  · intro hf
    simp [verify, hf]
  · intro ht
    unfold verify
    simp only [ht, if_true]
    split <;> simp [h2]

theorem awaitApproval_events (w : World) (fuel : Nat) (t : List Event) (os : OS)
    (e : Option RodError) (h : awaitApproval w fuel = some (t, os, e)) :
    (e = none → Event.click "span" "Allow access" ∈ t) ∧
    (w.hasApproved = false → Event.browserClose ∉ t ∧ Event.getCookies ∉ t) ∧
    (e = none → w.hasApproved = true → Event.getCookies ∈ t) := by
  have hv := verify_events w
  unfold awaitApproval at h
  generalize verify w = v at h hv
  obtain ⟨tv, osv, ev⟩ := v
  split at h
  · simp at h
  · rename_i ta ea ha
    simp at h
    obtain ⟨rfl, -, rfl⟩ := h
    have := allowLoop_events w _ _ _ _ _ ha
    simp_all
  · rename_i ta ha
    simp at h
    obtain ⟨rfl, -, rfl⟩ := h
    have h1 := allowLoop_events w _ _ _ _ _ ha
    refine ⟨fun _ => ?_, fun hf => ?_, fun he ht => ?_⟩
    · simp [h1.2.2 rfl rfl]
    · simp at hv
      simp [hv.1 hf, h1.1, h1.2.1]
    · simp at hv
      simp [hv.2 ht]

theorem tryBody_events (w : World) (url u p : String) (fuel : Nat) (t : List Event) (os : OS)
    (e : Option RodError) (h : tryBody w url u p fuel = some (t, os, e)) :
    (e = none → Event.click "span" "Allow access" ∈ t) ∧
    (w.hasApproved = false → Event.browserClose ∉ t ∧ Event.getCookies ∉ t) ∧
    (e = none → w.hasApproved = true → Event.getCookies ∈ t) := by
  have hs := close_getCookies_not_mem_signIn w u p
  have ha := awaitApproval_events w fuel
  unfold tryBody at h
  generalize signIn w u p = s at h hs
  obtain ⟨ts, es⟩ := s
  generalize awaitApproval w fuel = a at h ha
  rcases a with _ | ⟨tr, osr, er⟩
  · rcases hmp : w.mustPage with _ | e1 <;> rcases hc : w.confirm with _ | e2 <;>
      rcases hr : w.race with e3 | (_ | _) <;> rcases es with _ | e4 <;>
      simp [hmp, hc, hr] at h <;>
      (obtain ⟨rfl, -, rfl⟩ := h; simp_all)
  · have := ha _ _ _ rfl
    rcases hmp : w.mustPage with _ | e1 <;> rcases hc : w.confirm with _ | e2 <;>
      rcases hr : w.race with e3 | (_ | _) <;> rcases es with _ | e4 <;>
      simp [hmp, hc, hr] at h <;>
      (obtain ⟨rfl, -, rfl⟩ := h; simp_all [mfa])

theorem ssoLogin_events (w : World) (url : String) (fuel : Nat) (t : List Event) (os : OS)
    (out : Outcome Unit) (h : ssoLogin w url fuel = some (t, os, out)) :
    (out = Outcome.exit 1 → w.hasApproved = false → Event.browserClose ∉ t) ∧
    (out = Outcome.returns () →
      Event.click "span" "Allow access" ∈ t ∧
      (Event.getCookies ∈ t ↔ w.hasApproved = true)) := by
  have hc := close_getCookies_not_mem_getCredentials w.os
  have hl := close_getCookies_not_mem_loadCookies w.os w.setCookies
  unfold ssoLogin at h
  generalize getCredentials w.os = gc at h hc
  generalize loadCookies w.os w.setCookies = lc at h hl
  obtain ⟨t0, o0⟩ := gc
  obtain ⟨tl, ol⟩ := lc
  rcases o0 with ⟨u, p⟩ | code | msg
  · have ht := tryBody_events w url u p fuel
    dsimp only at h
    generalize tryBody w url u p fuel = tb at h ht
    rcases hla : w.launch with _ | e1
    · rcases hco : w.connect with _ | e2
      · rcases ol with _ | code2 | msg2
        · rcases tb with _ | ⟨tt, ost, _ | _ | text⟩
          · simp [hla, hco] at h
          · have := ht _ _ _ rfl
            rcases hd : w.deferredClose with _ | e5 <;>
              simp [hla, hco, hd] at h <;>
              (obtain ⟨rfl, -, rfl⟩ := h
               cases hap : w.hasApproved <;> simp_all)
          · have := ht _ _ _ rfl
            simp [hla, hco] at h
            obtain ⟨rfl, -, rfl⟩ := h
            simp_all [panic]
          · have := ht _ _ _ rfl
            simp [hla, hco] at h
            obtain ⟨rfl, -, rfl⟩ := h
            simp_all [panic]
        · simp [hla, hco] at h
          obtain ⟨rfl, -, rfl⟩ := h
          simp_all
        · simp [hla, hco] at h
          obtain ⟨rfl, -, rfl⟩ := h
          simp
      · simp [hla, hco] at h
        obtain ⟨rfl, -, rfl⟩ := h
        simp
    · simp [hla] at h
      obtain ⟨rfl, -, rfl⟩ := h
      simp
  · dsimp only at h
    simp at h
    obtain ⟨rfl, -, rfl⟩ := h
    simp_all
  · dsimp only at h
    simp at h
    obtain ⟨rfl, -, rfl⟩ := h
    simp_all

/-- C5: a run of `ssoLogin` that ends in the fatal-error routine, the page not showing "Request
approved", contains no browser close at all: `os.Exit(1)` ends the process before the deferred
close is run. -/
theorem ssoLogin_fatal_exit_without_close (w : World) (url : String) (fuel : Nat)
    (t : List Event) (os : OS) (hrun : ssoLogin w url fuel = some (t, os, Outcome.exit 1))
    (happ : w.hasApproved = false) : Event.browserClose ∉ t :=
  (ssoLogin_events w url fuel t os _ hrun).1 rfl happ

/-- The run in which the button "Confirm and continue" never appears. -/
theorem ssoLogin_noConfirmWorld :
    ssoLogin noConfirmWorld "https://sso.example/device?user_code=WXYZ-ABCD" 0 =
      some ([Event.spinnerMessage "fetching credentials from /home/u/.netrc",
             Event.spinnerMessage "init headless-browser \n", Event.spinnerPause, Event.launch,
             Event.connect, Event.spinnerMessage "loading cookies",
             Event.mustPage "https://sso.example/device?user_code=WXYZ-ABCD",
             Event.waitRequestIdle, Event.spinnerUnpause, Event.spinnerMessage "logging in",
             Event.click "button" "Confirm and continue",
             Event.spinnerStopFailMessage "Login failed error - cannot find element",
             Event.spinnerStopFail, Event.osExit 1],
            netrcOnlyOS, Outcome.exit 1) := by
  have hos : noConfirmWorld.os = netrcOnlyOS := rfl
  simp only [ssoLogin, hos, getCredentials_netrcOnlyOS, loadCookies_netrcOnlyOS]
  rfl

theorem ssoLogin_fatal_exit_without_close_witness :
    Event.connect ∈
      [Event.spinnerMessage "fetching credentials from /home/u/.netrc",
       Event.spinnerMessage "init headless-browser \n", Event.spinnerPause, Event.launch,
       Event.connect, Event.spinnerMessage "loading cookies",
       Event.mustPage "https://sso.example/device?user_code=WXYZ-ABCD",
       Event.waitRequestIdle, Event.spinnerUnpause, Event.spinnerMessage "logging in",
       Event.click "button" "Confirm and continue",
       Event.spinnerStopFailMessage "Login failed error - cannot find element",
       Event.spinnerStopFail, Event.osExit 1] ∧
    Event.browserClose ∉
      [Event.spinnerMessage "fetching credentials from /home/u/.netrc",
       Event.spinnerMessage "init headless-browser \n", Event.spinnerPause, Event.launch,
       Event.connect, Event.spinnerMessage "loading cookies",
       Event.mustPage "https://sso.example/device?user_code=WXYZ-ABCD",
       Event.waitRequestIdle, Event.spinnerUnpause, Event.spinnerMessage "logging in",
       Event.click "button" "Confirm and continue",
       Event.spinnerStopFailMessage "Login failed error - cannot find element",
       Event.spinnerStopFail, Event.osExit 1] :=
  ⟨by simp, ssoLogin_fatal_exit_without_close noConfirmWorld _ 0 _ _ ssoLogin_noConfirmWorld rfl⟩

/-- The run in which "Allow access" is clicked and "Request approved" does not show. -/
theorem main_unapprovedWorld :
    main unapprovedWorld 2 =
      some ([Event.spinnerStart, Event.spinnerMessage "reading url from stdin",
             Event.spinnerMessage "fetching credentials from /home/u/.netrc",
             Event.spinnerMessage "init headless-browser \n", Event.spinnerPause, Event.launch,
             Event.connect, Event.spinnerMessage "loading cookies",
             Event.mustPage "https://sso.example/device?user_code=WXYZ-ABCD",
             Event.waitRequestIdle, Event.spinnerUnpause, Event.spinnerMessage "logging in",
             Event.click "button" "Confirm and continue", Event.spinnerMessage "waited",
             Event.race, Event.input "#awsui-input-0" "bob", Event.input "#awsui-input-1" "pw123",
             Event.notify, Event.beep, Event.spinnerMessage "Touch U2F",
             Event.hasR "span" "Allow access", Event.click "span" "Allow access",
             Event.sleep 500, Event.hasR "div" "Request approved", Event.browserClose,
             Event.spinnerStop, Event.sleep 1000],
            netrcOnlyOS, Outcome.returns ()) := by
  have hos : unapprovedWorld.os = netrcOnlyOS := rfl
  have hurl : getURL 2 unapprovedWorld.stdin =
      some "https://sso.example/device?user_code=WXYZ-ABCD" := by decide
  simp only [main, hurl, ssoLogin, hos, getCredentials_netrcOnlyOS, loadCookies_netrcOnlyOS]
  rfl

/-- C6, as stated, fails: a run in which "Request approved" is absent and `saveCookies` is never
called ends with the spinner's success state and exit status 0. -/
theorem success_without_approval :
    ∃ t os, main unapprovedWorld 2 = some (t, os, Outcome.returns ()) ∧
      exitCode (Outcome.returns ()) = 0 ∧
      unapprovedWorld.hasApproved = false ∧ Event.spinnerStop ∈ t ∧ Event.getCookies ∉ t ∧
      Event.spinnerStopMessage "Request approved" ∉ t :=
  ⟨_, _, main_unapprovedWorld, rfl, rfl, by simp, by simp, by simp⟩

/-- C6, amended: a run of `main` that ends with the success outcome has clicked "Allow access"
and stopped the spinner in its success state; `saveCookies` is called in it exactly when the
page shows "Request approved". -/
theorem main_success_iff_saved (w : World) (fuel : Nat) (t : List Event) (os : OS)
    (h : main w fuel = some (t, os, Outcome.returns ())) :
    Event.click "span" "Allow access" ∈ t ∧ Event.spinnerStop ∈ t ∧
      (Event.getCookies ∈ t ↔ w.hasApproved = true) := by
  unfold main at h
  rcases hu : getURL fuel w.stdin with _ | url
  · simp [hu] at h
  · have hs := ssoLogin_events w url fuel
    simp only [hu] at h
    generalize ssoLogin w url fuel = r at h hs
    rcases r with _ | ⟨ts, oss, _ | code | msg⟩
    · simp at h
    · have := (hs _ _ _ rfl).2 rfl
      simp at h
      obtain ⟨rfl, -⟩ := h
      simp_all
    · simp at h
    · simp at h

theorem main_success_iff_saved_witness :
    Event.click "span" "Allow access" ∈
      [Event.spinnerStart, Event.spinnerMessage "reading url from stdin",
       Event.spinnerMessage "fetching credentials from /home/u/.netrc",
       Event.spinnerMessage "init headless-browser \n", Event.spinnerPause, Event.launch,
       Event.connect, Event.spinnerMessage "loading cookies",
       Event.mustPage "https://sso.example/device?user_code=WXYZ-ABCD",
       Event.waitRequestIdle, Event.spinnerUnpause, Event.spinnerMessage "logging in",
       Event.click "button" "Confirm and continue", Event.spinnerMessage "waited",
       Event.race, Event.input "#awsui-input-0" "bob", Event.input "#awsui-input-1" "pw123",
       Event.notify, Event.beep, Event.spinnerMessage "Touch U2F",
       Event.hasR "span" "Allow access", Event.click "span" "Allow access",
       Event.sleep 500, Event.hasR "div" "Request approved", Event.browserClose,
       Event.spinnerStop, Event.sleep 1000] ∧
    Event.spinnerStop ∈
      [Event.spinnerStart, Event.spinnerMessage "reading url from stdin",
       Event.spinnerMessage "fetching credentials from /home/u/.netrc",
       Event.spinnerMessage "init headless-browser \n", Event.spinnerPause, Event.launch,
       Event.connect, Event.spinnerMessage "loading cookies",
       Event.mustPage "https://sso.example/device?user_code=WXYZ-ABCD",
       Event.waitRequestIdle, Event.spinnerUnpause, Event.spinnerMessage "logging in",
       Event.click "button" "Confirm and continue", Event.spinnerMessage "waited",
       Event.race, Event.input "#awsui-input-0" "bob", Event.input "#awsui-input-1" "pw123",
       Event.notify, Event.beep, Event.spinnerMessage "Touch U2F",
       Event.hasR "span" "Allow access", Event.click "span" "Allow access",
       Event.sleep 500, Event.hasR "div" "Request approved", Event.browserClose,
       Event.spinnerStop, Event.sleep 1000] ∧
    (Event.getCookies ∈
      [Event.spinnerStart, Event.spinnerMessage "reading url from stdin",
       Event.spinnerMessage "fetching credentials from /home/u/.netrc",
       Event.spinnerMessage "init headless-browser \n", Event.spinnerPause, Event.launch,
       Event.connect, Event.spinnerMessage "loading cookies",
       Event.mustPage "https://sso.example/device?user_code=WXYZ-ABCD",
       Event.waitRequestIdle, Event.spinnerUnpause, Event.spinnerMessage "logging in",
       Event.click "button" "Confirm and continue", Event.spinnerMessage "waited",
       Event.race, Event.input "#awsui-input-0" "bob", Event.input "#awsui-input-1" "pw123",
       Event.notify, Event.beep, Event.spinnerMessage "Touch U2F",
       Event.hasR "span" "Allow access", Event.click "span" "Allow access",
       Event.sleep 500, Event.hasR "div" "Request approved", Event.browserClose,
       Event.spinnerStop, Event.sleep 1000] ↔ unapprovedWorld.hasApproved = true) :=
  main_success_iff_saved unapprovedWorld 2 _ _ main_unapprovedWorld

end HeadlessSSO
